import Mathlib

/-!
# MITASU Smart DSLR Pan and Tilt: command buffer and motion processor

A shallow embedding of `src/CommandBuffer.cpp`, of `src/StepperMotor.cpp` and of the
parts of `src/MotionProcessor.cpp` the verified properties speak about.

Conventions of the embedding

* A `char` is the natural number of its code; `'\0'` is `0`.
* A `char*` argument is `Option (Nat → Nat)`: `none` is the `NULL` pointer and
  `some mem` a pointer to caller memory, `mem i` being the character at index `i`.
  Caller memory and the slots of the buffer are disjoint regions.
* The loop counter `uint8_t i` is a natural number below `256`; `i++` is
  `(i + 1) % 256`.
* In an assignment the right operand is evaluated before the left one (the order C++17
  fixes; before C++17 the two copy statements have no defined order).  So
  `buffer[_tail][i++] = command[i]` reads `command[i]`, increases the counter and
  stores at the index the counter had before (`copyLoop`), while
  `command[i] = buffer[_head][i++]` reads `buffer[_head][i]`, increases the counter
  and stores at the index the counter has now, one further (`copyOutLoop`).
* A `while` loop is run on fuel and answers `none` when the fuel is used up.  The
  fuel handed to the copy loops is `257`: the loop condition reads memory that the
  loop body never writes, so a loop that has not stopped after `256` rounds has
  its counter back at `0` and never stops.  `none` therefore is exactly a call that
  does not return.
* `BUFFERSIZE` and `MAX_COMMAND_LENGTH` are `#define`d in `inc/CommandBuffer.hpp`,
  which is not part of the sources at hand; they are parameters (`Config`).  So are
  the speed limits and step rates of `inc/PinDef.h` (`PinDef`).
* `_head`, `_tail` and `_numCommandsStored` are declared in the same header; they are
  unbounded numbers here.  The invariant of the buffer keeps all three at most
  `BUFFERSIZE`, so no width that can hold `BUFFERSIZE` overflows.
* The pins are seen through the record of the calls `digitalWrite(pin, value)` made so
  far (`PinLog`); what `digitalRead(pin)` returns is given by a `Board`, a function of
  that record, so that a simulated sensor can follow the steps of a motor.
* `pause`, `delay` and the serial output only let time pass or print; they are left out.
* The loops of `home` wait for the board and need not end: they run on fuel given by
  the caller, and `none` is fuel used up.
-/

namespace CommandBuffer

/-- Constants of `inc/CommandBuffer.hpp`. -/
structure Config where
  BUFFERSIZE : Nat
  MAX_COMMAND_LENGTH : Nat

/-- Data members of the class `CommandBuffer`: `buffer s i` is `buffer[s][i]`.
The counter `_numCommandsStored` is an integer, so that `++` and `--` are exact. -/
structure State where
  buffer : Nat → Nat → Nat
  _head : Nat
  _tail : Nat
  _full : Bool
  _numCommandsStored : Int

/-- Pointer to caller memory (`char*`); `none` is `NULL`. -/
abbrev Ptr := Option (Nat → Nat)

/-- The loop of `putCommand`,
`while ((command[i] != '\0') && (i < (MAX_COMMAND_LENGTH-1))) buffer[_tail][i++] = command[i];`
with `src` the memory of the caller and `dst` the slot at the tail, started at counter
`i`.  The right operand `command[i]` is evaluated first and stored at the index the
counter has before `i++`.  Answers the counter and the slot when the loop stops. -/
def copyLoop (cfg : Config) (src : Nat → Nat) :
    Nat → Nat → (Nat → Nat) → Option (Nat × (Nat → Nat))
  | 0, _, _ => none
  | fuel + 1, i, dst =>
    if src i ≠ 0 ∧ i < cfg.MAX_COMMAND_LENGTH - 1 then
      copyLoop cfg src fuel ((i + 1) % 256) (Function.update dst i (src i))
    else
      some (i, dst)

/-- Fuel of the copy loops: `256` rounds and the final test. -/
def loopFuel : Nat := 257

/-- Modelled from the spec: `isEmpty()` is defined in `inc/CommandBuffer.hpp`; the
spec keeps a dedicated `full` flag to tell empty from full when head equals tail. -/
def isEmpty (s : State) : Bool :=
  !s._full && s._head == s._tail

/-- Embedding of `CommandBuffer::putCommand`: the status and the new state. -/
def putCommand (cfg : Config) (s : State) (command : Ptr) : Option (Nat × State) :=
  match command with
  | none => some (2, s)
  | some cmd =>
    if s._full then some (0, s)
    else
      match copyLoop cfg cmd loopFuel 0 (s.buffer s._tail) with
      | none => none
      | some (i, slot) =>
        let slot := Function.update slot i 0
        let _tail := (s._tail + 1) % cfg.BUFFERSIZE
        some (1,
          { buffer := Function.update s.buffer s._tail slot
            _head := s._head
            _tail := _tail
            _full := if _tail = s._head then true else s._full
            _numCommandsStored := s._numCommandsStored + 1 })

/-- The loop of `getCommand` and of `peekCommand`,
`while (buffer[_head][i] != '\0' && i < MAX_COMMAND_LENGTH - 1) command[i] = buffer[_head][i++];`
with `src` the slot at the head and `dst` the memory of the caller.  The right operand
`buffer[_head][i++]` is evaluated first: the character at index `i` is read and the
counter increased, and the character is stored at the index the counter has then.
Answers the counter and the memory written when the loop stops. -/
def copyOutLoop (cfg : Config) (src : Nat → Nat) :
    Nat → Nat → (Nat → Nat) → Option (Nat × (Nat → Nat))
  | 0, _, _ => none
  | fuel + 1, i, dst =>
    if src i ≠ 0 ∧ i < cfg.MAX_COMMAND_LENGTH - 1 then
      copyOutLoop cfg src fuel ((i + 1) % 256) (Function.update dst ((i + 1) % 256) (src i))
    else some (i, dst)

/-- Embedding of `CommandBuffer::getCommand`: the status, the new state and the
caller memory afterwards. -/
def getCommand (cfg : Config) (s : State) (command : Ptr) : Option (Nat × State × Ptr) :=
  match command with
  | none => some (2, s, none)
  | some out =>
    if isEmpty s then some (0, s, some (Function.update out 0 0))
    else
      match copyOutLoop cfg (s.buffer s._head) loopFuel 0 out with
      | none => none
      | some (i, out) =>
        some (1,
          { buffer := s.buffer
            _head := (s._head + 1) % cfg.BUFFERSIZE
            _tail := s._tail
            _full := false
            _numCommandsStored := s._numCommandsStored - 1 },
          some (Function.update out i 0))

/-- Embedding of `CommandBuffer::peekCommand`. -/
def peekCommand (cfg : Config) (s : State) (command : Ptr) : Option (Nat × State × Ptr) :=
  match command with
  | none => some (2, s, none)
  | some out =>
    if isEmpty s then some (0, s, some (Function.update out 0 0))
    else
      match copyOutLoop cfg (s.buffer s._head) loopFuel 0 out with
      | none => none
      | some (i, out) => some (1, s, some (Function.update out i 0))

/-- Characters of the string at `mem[i ..]`, read up to its terminator and at most
`bound` characters far. -/
def cstrFrom (mem : Nat → Nat) : Nat → Nat → List Nat
  | 0, _ => []
  | bound + 1, i => if mem i = 0 then [] else mem i :: cstrFrom mem bound (i + 1)

/-- The string held by `mem`: its characters before the first `'\0'`, at most
`bound` of them. -/
def cstr (bound : Nat) (mem : Nat → Nat) : List Nat :=
  cstrFrom mem bound 0

/-- Modelled from the spec: the constructor is part of `inc/CommandBuffer.hpp`; a new
buffer is empty, with head and tail at slot `0`, the full flag clear and no command
counted.  The slots hold whatever `buffer` says. -/
def new (buffer : Nat → Nat → Nat) : State :=
  { buffer := buffer, _head := 0, _tail := 0, _full := false, _numCommandsStored := 0 }

/-- One call of a client on the buffer. -/
inductive Call where
  | put (command : Ptr)
  | get (command : Ptr)
  | peek (command : Ptr)

/-- What a call left behind: its status and the caller memory afterwards. -/
structure Event where
  call : Call
  status : Nat
  memory : Ptr

/-- Performs one call: status, new state and caller memory afterwards (`putCommand`
only reads its argument). -/
def perform (cfg : Config) (s : State) : Call → Option (Nat × State × Ptr)
  | .put command =>
    match putCommand cfg s command with
    | none => none
    | some (status, s') => some (status, s', command)
  | .get command => getCommand cfg s command
  | .peek command => peekCommand cfg s command

/-- Performs a sequence of calls, one after the other, and records each of them. -/
def run (cfg : Config) : State → List Call → Option (State × List Event)
  | s, [] => some (s, [])
  | s, c :: cs =>
    match perform cfg s c with
    | none => none
    | some (status, s', memory) =>
      match run cfg s' cs with
      | none => none
      | some (s'', events) => some (s'', ⟨c, status, memory⟩ :: events)

/-- The strings passed to the successful `putCommand` calls of a record, in order. -/
def putLog (bound : Nat) : List Event → List (List Nat)
  | [] => []
  | ⟨.put (some cmd), 1, _⟩ :: events => cstr bound cmd :: putLog bound events
  | _ :: events => putLog bound events

/-- The strings that the successful `getCommand` calls of a record leave in the memory of
the caller, in order. -/
def getLog (bound : Nat) : List Event → List (List Nat)
  | [] => []
  | ⟨.get _, 1, some out⟩ :: events => cstr bound out :: getLog bound events
  | _ :: events => getLog bound events

/-- Number of valid entries between head and tail: `BUFFERSIZE` when the full flag is
set, `(tail - head) mod BUFFERSIZE` otherwise. -/
def validEntries (cfg : Config) (s : State) : Int :=
  if s._full then (cfg.BUFFERSIZE : Int)
  else ((s._tail : Int) - (s._head : Int)) % (cfg.BUFFERSIZE : Int)

/-- The indices of a state are those of a buffer holding `k` entries: the head is a
slot, the tail is `k` slots after it (wrapping around), and the full flag is set
exactly when `k` is the capacity. -/
def Holds (cfg : Config) (s : State) (k : Nat) : Prop :=
  s._head < cfg.BUFFERSIZE ∧ s._tail = (s._head + k) % cfg.BUFFERSIZE ∧
    k ≤ cfg.BUFFERSIZE ∧ (s._full = true ↔ k = cfg.BUFFERSIZE)

/-- An array element a call reads or writes: `buffer[slot][index]`, or `command[index]`
in the memory of the caller. -/
inductive Access where
  | slot (slot index : Nat)
  | caller (index : Nat)

/-- The element is one of its array: the slot is one of the `BUFFERSIZE` slots and the
index one of the `MAX_COMMAND_LENGTH` characters of a slot; in caller memory the index
is at most `MAX_COMMAND_LENGTH - 1`. -/
def Access.InBounds (cfg : Config) : Access → Prop
  | .slot s i => s < cfg.BUFFERSIZE ∧ i < cfg.MAX_COMMAND_LENGTH
  | .caller i => i ≤ cfg.MAX_COMMAND_LENGTH - 1

/-- The loop `copyLoop` with the record of the elements it touches, oldest first:
the loop test reads `src[i]`, the loop body reads `src[i]` and writes `dst[i]`.  `rd i`
names the element `src[i]` and `wr i` the element `dst[i]`. -/
def copyLoopTraced (cfg : Config) (src : Nat → Nat) (rd wr : Nat → Access) :
    Nat → Nat → (Nat → Nat) → List Access → Option (Nat × (Nat → Nat) × List Access)
  | 0, _, _, _ => none
  | fuel + 1, i, dst, touched =>
    if src i ≠ 0 ∧ i < cfg.MAX_COMMAND_LENGTH - 1 then
      copyLoopTraced cfg src rd wr fuel ((i + 1) % 256) (Function.update dst i (src i))
        (touched ++ [rd i, rd i, wr i])
    else
      some (i, dst, touched ++ [rd i])

/-- The loop `copyOutLoop` with the record of the elements it touches, oldest first:
the loop test reads `src[i]`, the loop body reads `src[i]`, increases the counter and
writes `dst` at the increased counter. -/
def copyOutLoopTraced (cfg : Config) (src : Nat → Nat) (rd wr : Nat → Access) :
    Nat → Nat → (Nat → Nat) → List Access → Option (Nat × (Nat → Nat) × List Access)
  | 0, _, _, _ => none
  | fuel + 1, i, dst, touched =>
    if src i ≠ 0 ∧ i < cfg.MAX_COMMAND_LENGTH - 1 then
      copyOutLoopTraced cfg src rd wr fuel ((i + 1) % 256)
        (Function.update dst ((i + 1) % 256) (src i))
        (touched ++ [rd i, rd i, wr ((i + 1) % 256)])
    else
      some (i, dst, touched ++ [rd i])

/-- Embedding of `CommandBuffer::putCommand` with the record of the elements it
touches: the loop, then the write of the terminator `buffer[_tail][i] = '\0'`. -/
def putCommandTraced (cfg : Config) (s : State) (command : Ptr) :
    Option (Nat × State × List Access) :=
  match command with
  | none => some (2, s, [])
  | some cmd =>
    if s._full then some (0, s, [])
    else
      match copyLoopTraced cfg cmd Access.caller (Access.slot s._tail) loopFuel 0
          (s.buffer s._tail) [] with
      | none => none
      | some (i, slot, touched) =>
        let slot := Function.update slot i 0
        let _tail := (s._tail + 1) % cfg.BUFFERSIZE
        some (1,
          { buffer := Function.update s.buffer s._tail slot
            _head := s._head
            _tail := _tail
            _full := if _tail = s._head then true else s._full
            _numCommandsStored := s._numCommandsStored + 1 },
          touched ++ [Access.slot s._tail i])

/-- Embedding of `CommandBuffer::getCommand` with the record of the elements it
touches: `command[0] = '\0'` on an empty buffer, else the loop and the write of the
terminator `command[i] = '\0'`. -/
def getCommandTraced (cfg : Config) (s : State) (command : Ptr) :
    Option (Nat × State × Ptr × List Access) :=
  match command with
  | none => some (2, s, none, [])
  | some out =>
    if isEmpty s then some (0, s, some (Function.update out 0 0), [Access.caller 0])
    else
      match copyOutLoopTraced cfg (s.buffer s._head) (Access.slot s._head) Access.caller
          loopFuel 0 out [] with
      | none => none
      | some (i, out, touched) =>
        some (1,
          { buffer := s.buffer
            _head := (s._head + 1) % cfg.BUFFERSIZE
            _tail := s._tail
            _full := false
            _numCommandsStored := s._numCommandsStored - 1 },
          some (Function.update out i 0),
          touched ++ [Access.caller i])

/-- Embedding of `CommandBuffer::peekCommand` with the record of the elements it
touches. -/
def peekCommandTraced (cfg : Config) (s : State) (command : Ptr) :
    Option (Nat × State × Ptr × List Access) :=
  match command with
  | none => some (2, s, none, [])
  | some out =>
    if isEmpty s then some (0, s, some (Function.update out 0 0), [Access.caller 0])
    else
      match copyOutLoopTraced cfg (s.buffer s._head) (Access.slot s._head) Access.caller
          loopFuel 0 out [] with
      | none => none
      | some (i, out, touched) =>
        some (1, s, some (Function.update out i 0), touched ++ [Access.caller i])

/-- Performs one call and records the elements it touches. -/
def performTraced (cfg : Config) (s : State) : Call → Option (Nat × State × Ptr × List Access)
  | .put command =>
    match putCommandTraced cfg s command with
    | none => none
    | some (status, s', touched) => some (status, s', command, touched)
  | .get command => getCommandTraced cfg s command
  | .peek command => peekCommandTraced cfg s command

/-- Performs a sequence of calls and records the calls and the elements they touch. -/
def runTraced (cfg : Config) : State → List Call → Option (State × List Event × List Access)
  | s, [] => some (s, [], [])
  | s, c :: cs =>
    match performTraced cfg s c with
    | none => none
    | some (status, s', memory, touched) =>
      match runTraced cfg s' cs with
      | none => none
      | some (s'', events, touched') =>
        some (s'', ⟨c, status, memory⟩ :: events, touched ++ touched')

/-- Each of the first `k` slots from the head on has a terminator among its
`MAX_COMMAND_LENGTH` characters. -/
def Terminated (cfg : Config) (s : State) (k : Nat) : Prop :=
  ∀ j, j < k → ∃ n, n ≤ cfg.MAX_COMMAND_LENGTH - 1 ∧
    s.buffer ((s._head + j) % cfg.BUFFERSIZE) n = 0

/-- The first `n` characters of the memory behind a pointer. -/
def firstChars (n : Nat) (p : Ptr) : Option (List Nat) :=
  p.map fun mem => (List.range n).map mem

/-- A buffer of three slots of four characters. -/
def demoConfig : Config :=
  { BUFFERSIZE := 3, MAX_COMMAND_LENGTH := 4 }

/-- Caller memory holding the string `str` and terminators after it. -/
def stringAt (str : List Nat) : Nat → Nat :=
  fun i => str.getD i 0

end CommandBuffer

/-- Record of the pin writes `digitalWrite(pin, value)` made so far, oldest first. -/
abbrev PinLog := List (Nat × Nat)

/-- The board around the program: `board log pin` is the level `digitalRead(pin)`
returns once the writes of `log` have been made. -/
abbrev Board := PinLog → Nat → Nat

/-- Level `HIGH` of `Arduino.h`. -/
def HIGH : Nat := 1

/-- Level `LOW` of `Arduino.h`. -/
def LOW : Nat := 0

/-- Data members of the class `StepperMotor`: its pins. -/
structure StepperMotor where
  _dir_pin : Nat
  _step_pin : Nat
  _en_pin : Nat
  _endstop_pin : Nat

namespace StepperMotor

/-- Embedding of `StepperMotor::enable`; `EN_MOTOR_ON` is a constant of `inc/PinDef.h`. -/
def enable (EN_MOTOR_ON : Nat) (m : StepperMotor) (log : PinLog) : PinLog :=
  log ++ [(m._en_pin, EN_MOTOR_ON)]

/-- Embedding of `StepperMotor::disable`. -/
def disable (EN_MOTOR_OFF : Nat) (m : StepperMotor) (log : PinLog) : PinLog :=
  log ++ [(m._en_pin, EN_MOTOR_OFF)]

/-- Embedding of `StepperMotor::hardStep`. -/
def hardStep (m : StepperMotor) (log : PinLog) (dir : Nat) : PinLog :=
  log ++ [(m._dir_pin, dir), (m._step_pin, HIGH), (m._step_pin, LOW)]

/-- Embedding of `StepperMotor::endstop`: `!digitalRead(_endstop_pin)`. -/
def endstop (m : StepperMotor) (board : Board) (log : PinLog) : Nat :=
  if board log m._endstop_pin = 0 then 1 else 0

/-- Embedding of `StepperMotor::step`: the value returned and the pin writes
afterwards. -/
def step (m : StepperMotor) (board : Board) (log : PinLog) (dir : Nat) : Nat × PinLog :=
  if m.endstop board log ≠ 0 then (0, log)
  else (1, m.hardStep log dir)

end StepperMotor

namespace MotionProcessor

/-- The whole number left when the fraction of `x` is dropped: `x` rounded toward zero. -/
def toLong (x : ℚ) : Int :=
  x.num.tdiv x.den

/-- Constants of `inc/PinDef.h`, which is not part of the sources at hand: the speed
limits in degrees per second, the step rates in degrees per step, the number of
motors, the levels of the direction pins, the value `endstop()` is compared with
during homing, and the levels of the enable pin.  With them comes the arithmetic of
the board the constants are compiled for, which fixes the width of `double` and of
`long`: `toDouble x` is the `double` next to the exact number `x`, `divide x y` is the
`double` that `x / y` yields and `castLong x` is the value of `(long)x`.  All that is
taken for granted of them is that zero is a `double`, that a division by a non-zero
`double` is correctly rounded, so yields the `double` next to the exact quotient, and
that the conversion of a `double` below `2^31` in absolute value, which every `long`
can hold, drops the fraction.  What a division by zero yields (an infinity or NaN) and
what the conversion of a `double` no `long` can hold yields are left open; overflow of
a quotient to an infinity is outside of the model. -/
structure PinDef where
  PAN_MIN_SPEED : ℚ
  PAN_MAX_SPEED : ℚ
  PAN_STEPRATE : ℚ
  TILT_MIN_SPEED : ℚ
  TILT_MAX_SPEED : ℚ
  TILT_STEPRATE : ℚ
  NUM_OF_MOTORS : Nat
  PAN_DIR_CW : Nat
  PAN_DIR_CCW : Nat
  TILT_DIR_CW : Nat
  TILT_DIR_CCW : Nat
  HALL_MAG_DETECTED : Nat
  EN_MOTOR_ON : Nat
  EN_MOTOR_OFF : Nat
  toDouble : ℚ → ℚ
  divide : ℚ → ℚ → ℚ
  castLong : ℚ → Int
  toDouble_zero : toDouble 0 = 0
  divide_eq : ∀ x y : ℚ, y ≠ 0 → divide x y = toDouble (x / y)
  castLong_inRange : ∀ x : ℚ, |x| < 2147483648 → castLong x = toLong x

/-- The type `DoubleVector`: a pan and a tilt angle. -/
structure DoubleVector where
  p : ℚ
  t : ℚ

/-- The type `LongVector`: a pan and a tilt step count. -/
structure LongVector where
  p : Int
  t : Int

/-- The type `MoveMode`. -/
inductive MoveMode where
  | ABS
  | REL
  deriving DecidableEq

/-- Data members of `MotionProcessor` that the functions below read or write, and the
record of the pin writes (`digitalWrite(pin, value)`) made through the motors so far.
A `double` is the rational number it stands for: comparisons and assignments are
exact, a division is `PinDef.divide`, and NaN and the infinities are outside of the
model.  A `long` is an integer.  The array `_delta` is declared in `inc/MotionProcessor.hpp`, which is not
part of the sources at hand: its elements are rational numbers here, which hold a
`double` as well as a `long`, and the conversion made when a value is stored in it is
a parameter of `line`.  `motorDir i` is the direction `motors[i]` was last set to by
`setDir`. -/
structure State where
  motors : Nat → StepperMotor
  _currentPosition : DoubleVector
  _currentPositionSteps : LongVector
  _mode : MoveMode
  motorDir : Nat → Nat
  _delta : Nat → ℚ
  _fastest : Nat
  _pan_speed : ℚ
  _pan_feedrate : ℚ
  _pan_linearStepDelay : Int
  _tilt_speed : ℚ
  _tilt_feedrate : ℚ
  _tilt_linearStepDelay : Int
  pinWrites : List (Nat × Nat)

/-- Embedding of `MotionProcessor::setPanSpeed`. -/
def setPanSpeed (pd : PinDef) (mp : State) (speed : ℚ) : State :=
  let _pan_speed :=
    if speed < pd.PAN_MIN_SPEED then pd.PAN_MIN_SPEED
    else if speed > pd.PAN_MAX_SPEED then pd.PAN_MAX_SPEED
    else speed
  let _pan_feedrate := pd.divide _pan_speed pd.PAN_STEPRATE
  { mp with
    _pan_speed := _pan_speed
    _pan_feedrate := _pan_feedrate
    _pan_linearStepDelay := pd.castLong (pd.divide 1000000 _pan_feedrate) }

/-- Embedding of `MotionProcessor::setTiltSpeed`. -/
def setTiltSpeed (pd : PinDef) (mp : State) (speed : ℚ) : State :=
  let _tilt_speed :=
    if speed ≤ pd.TILT_MIN_SPEED then pd.TILT_MIN_SPEED
    else if speed ≥ pd.TILT_MAX_SPEED then pd.TILT_MAX_SPEED
    else speed
  let _tilt_feedrate := pd.divide _tilt_speed pd.TILT_STEPRATE
  { mp with
    _tilt_speed := _tilt_speed
    _tilt_feedrate := _tilt_feedrate
    _tilt_linearStepDelay := pd.castLong (pd.divide 1000000 _tilt_feedrate) }

/-- Embedding of `MotionProcessor::setPosition(DoubleVector)`. -/
def setPosition (pd : PinDef) (mp : State) (pos : DoubleVector) : State :=
  { mp with
    _currentPosition := pos
    _currentPositionSteps :=
      { p := pd.castLong (pd.divide pos.p pd.PAN_STEPRATE)
        t := pd.castLong (pd.divide pos.t pd.TILT_STEPRATE) } }

/-- Embedding of `MotionProcessor::getPosition`. -/
def getPosition (mp : State) : DoubleVector :=
  mp._currentPosition

/-- Embedding of `MotionProcessor::getPositionSteps`. -/
def getPositionSteps (mp : State) : LongVector :=
  mp._currentPositionSteps

/-- One round of the loop of `line` that looks for the fastest axis:
`if (abs(_delta[_fastest]) <= abs(_delta[i])) _fastest = i;`. -/
def fastestStep (delta : Nat → ℚ) (fastest i : Nat) : Nat :=
  if |delta fastest| ≤ |delta i| then i else fastest

/-- Embedding of `MotionProcessor::line`.  `asDelta` is what becomes of the exact
quotient when the division has rounded it and the result is stored in `_delta`, whose
declaration is not at hand: the rounding alone for an array of `double`, the rounding
and the conversion to `long` for an array of `long` (`asSteps`).
Modelled from the spec: `setDir` is declared in `inc/StepperMotor.hpp`, not part of the
sources at hand; the spec keeps a direction flag per axis, set from the sign of the
delta, so `setDir(dir)` on `motors[i]` makes `dir` the direction of axis `i`. -/
def line (pd : PinDef) (asDelta : ℚ → ℚ) (mp : State) (coords : DoubleVector) : State :=
  let delta0 := asDelta (coords.p / pd.PAN_STEPRATE)
  let delta1 := asDelta (coords.t / pd.TILT_STEPRATE)
  let delta0 := if mp._mode = MoveMode.ABS then delta0 - mp._currentPositionSteps.p else delta0
  let delta1 := if mp._mode = MoveMode.ABS then delta1 - mp._currentPositionSteps.t else delta1
  let _delta := Function.update (Function.update mp._delta 0 delta0) 1 delta1
  let _fastest := (List.range pd.NUM_OF_MOTORS).foldl (fastestStep _delta) 0
  let dir0 := if _delta 0 < 0 then pd.PAN_DIR_CW else pd.PAN_DIR_CCW
  let dir1 := if _delta 1 < 0 then pd.TILT_DIR_CW else pd.TILT_DIR_CCW
  { mp with
    _delta := _delta
    _fastest := _fastest
    motorDir := Function.update (Function.update mp.motorDir 0 dir0) 1 dir1 }

/-- Embedding of `MotionProcessor::enableMotors`. -/
def enableMotors (pd : PinDef) (mp : State) : State :=
  { mp with
    pinWrites := (List.range pd.NUM_OF_MOTORS).foldl
      (fun log i => (mp.motors i).enable pd.EN_MOTOR_ON log) mp.pinWrites }

/-- First loop of `home` on one axis:
`while (motor.endstop() != HALL_MAG_DETECTED) { motor.hardStep(cw); pause(delay); }`.
The pauses only let time pass.  The loop runs on fuel; `none` is fuel used up. -/
def seekLoop (pd : PinDef) (board : Board) (m : StepperMotor) (cw : Nat) :
    Nat → PinLog → Option PinLog
  | 0, _ => none
  | fuel + 1, log =>
    if m.endstop board log ≠ pd.HALL_MAG_DETECTED then
      seekLoop pd board m cw fuel (m.hardStep log cw)
    else
      some log

/-- Second loop of `home` on one axis, with its counter `uint8_t steps_taken`:
`while (motor.endstop() == HALL_MAG_DETECTED) { motor.hardStep(cw); steps_taken++;
pause(delay); }`.  Answers the pin writes and the counter. -/
def countLoop (pd : PinDef) (board : Board) (m : StepperMotor) (cw : Nat) :
    Nat → PinLog → Nat → Option (PinLog × Nat)
  | 0, _, _ => none
  | fuel + 1, log, steps_taken =>
    if m.endstop board log = pd.HALL_MAG_DETECTED then
      countLoop pd board m cw fuel (m.hardStep log cw) ((steps_taken + 1) % 256)
    else
      some (log, steps_taken)

/-- The writes of `n` calls `motor.hardStep(dir)` in a row; the third loop of `home`
on one axis is `for (int i = 0; i < (steps_taken/2); i++) { motor.hardStep(ccw);
pause(delay); }`. -/
def stepTimes (m : StepperMotor) (dir : Nat) : Nat → PinLog → PinLog
  | 0, log => log
  | n + 1, log => stepTimes m dir n (m.hardStep log dir)

/-- The three loops of `home` on one axis, which `home` spells out once for the pan
and once for the tilt axis. -/
def homeAxis (pd : PinDef) (board : Board) (m : StepperMotor) (cw ccw : Nat) (fuel : Nat)
    (log : PinLog) : Option PinLog :=
  match seekLoop pd board m cw fuel log with
  | none => none
  | some log =>
    match countLoop pd board m cw fuel log 0 with
    | none => none
    | some (log, steps_taken) => some (stepTimes m ccw (steps_taken / 2) log)

/-- Modelled from the spec: `doubleZeroVect` is defined in a header that is not part of
the sources at hand; `home` marks the position of both axes as zero with it. -/
def doubleZeroVect : DoubleVector :=
  { p := 0, t := 0 }

/-- Embedding of `MotionProcessor::home`, each of its loops having `fuel` rounds at
most; `none` is fuel used up. -/
def home (pd : PinDef) (board : Board) (fuel : Nat) (mp : State) : Option State :=
  let mp := enableMotors pd mp
  let mp := setPanSpeed pd mp 5
  let mp := setTiltSpeed pd mp 5
  match homeAxis pd board (mp.motors 0) pd.PAN_DIR_CW pd.PAN_DIR_CCW fuel mp.pinWrites with
  | none => none
  | some log =>
    match homeAxis pd board (mp.motors 1) pd.TILT_DIR_CW pd.TILT_DIR_CCW fuel log with
    | none => none
    | some log => some (setPosition pd { mp with pinWrites := log } doubleZeroVect)

/-- Simulated axis: the effect of one pin write on the level of the direction pin and
on the position of the motor.  A write of `HIGH` to the step pin moves the motor one
step, forward when the direction pin is at level `cw` and backward otherwise. -/
def simWrite (m : StepperMotor) (cw : Nat) (axis : Nat × Int) (w : Nat × Nat) : Nat × Int :=
  if w.1 = m._dir_pin then (w.2, axis.2)
  else if w.1 = m._step_pin ∧ w.2 = HIGH then
    (axis.1, if axis.1 = cw then axis.2 + 1 else axis.2 - 1)
  else axis

/-- Simulated axis: position of the motor after the writes of `log`, from `start`. -/
def simPosition (m : StepperMotor) (cw : Nat) (start : Int) (log : PinLog) : Int :=
  (log.foldl (simWrite m cw) (cw, start)).2

/-- Simulated endstop of one axis: its pin reads `LOW` (magnet there) while the position
of the motor is one of the `width` positions from `first` on, and `HIGH` otherwise. -/
def simEndstop (m : StepperMotor) (cw : Nat) (start first : Int) (width : Nat)
    (log : PinLog) : Nat :=
  if first ≤ simPosition m cw start log ∧ simPosition m cw start log < first + width then LOW
  else HIGH

/-- Simulated board with an endstop on each of two axes (both start at position `0`);
every other pin reads `HIGH`. -/
def simBoard (pan tilt : StepperMotor) (panCw tiltCw : Nat) (panFirst : Int) (panWidth : Nat)
    (tiltFirst : Int) (tiltWidth : Nat) : Board :=
  fun log pin =>
    if pin = pan._endstop_pin then simEndstop pan panCw 0 panFirst panWidth log
    else if pin = tilt._endstop_pin then simEndstop tilt tiltCw 0 tiltFirst tiltWidth log
    else HIGH

/-- Simulated board for the motors of `demoState`: the pan magnet is met after
`panFirst` steps and is `panWidth` steps wide, the tilt magnet after `1` step and `5`
steps wide. -/
def demoBoard (panFirst : Int) (panWidth : Nat) : Board :=
  simBoard ⟨2, 3, 4, 5⟩ ⟨6, 7, 8, 9⟩ 0 0 panFirst panWidth 1 5

/-- Embedding of `MotionProcessor::bresenham`, the tick handler: its body is empty. -/
def bresenham (mp : State) : State :=
  mp

/-- Number of step pulses recorded on a step pin: its writes of `HIGH` (`1`). -/
def stepPulses (stepPin : Nat) (mp : State) : Nat :=
  (mp.pinWrites.filter fun w => w == (stepPin, 1)).length

/-- Speed limits and step rates for the examples, on a board whose `double` holds the
quotients of the examples as they are. -/
def demoPinDef : PinDef :=
  { PAN_MIN_SPEED := 1, PAN_MAX_SPEED := 30, PAN_STEPRATE := 9 / 80,
    TILT_MIN_SPEED := 2, TILT_MAX_SPEED := 20, TILT_STEPRATE := 9 / 40,
    NUM_OF_MOTORS := 2, PAN_DIR_CW := 0, PAN_DIR_CCW := 1, TILT_DIR_CW := 0,
    TILT_DIR_CCW := 1, HALL_MAG_DETECTED := 1, EN_MOTOR_ON := 0, EN_MOTOR_OFF := 1,
    toDouble := fun x => x, divide := fun x y => x / y, castLong := toLong,
    toDouble_zero := rfl, divide_eq := fun _ _ _ => rfl, castLong_inRange := fun _ _ => rfl }

/-- A coordinator at rest on which a move of `3` pan steps and `1` tilt step has been
planned, the pan axis being the fastest. -/
def demoState : State :=
  { motors := fun i => if i = 0 then ⟨2, 3, 4, 5⟩ else ⟨6, 7, 8, 9⟩
    _currentPosition := ⟨0, 0⟩
    _currentPositionSteps := ⟨0, 0⟩
    _mode := MoveMode.ABS
    motorDir := fun _ => 1
    _delta := fun i => if i = 0 then 3 else if i = 1 then 1 else 0
    _fastest := 0
    _pan_speed := 5, _pan_feedrate := 0, _pan_linearStepDelay := 0
    _tilt_speed := 5, _tilt_feedrate := 0, _tilt_linearStepDelay := 0
    pinWrites := [] }

/-- The coordinator of `demoState` away from home: at `45` degrees of pan and `-9`
degrees of tilt, which are `400` and `-40` steps. -/
def movedState : State :=
  { demoState with _currentPosition := ⟨45, -9⟩, _currentPositionSteps := ⟨400, -40⟩ }

end MotionProcessor

namespace CommandBuffer

/-- Result of the copy loop when `MAX_COMMAND_LENGTH ≤ 256`: with enough fuel the loop
stops at a counter `n ≤ MAX_COMMAND_LENGTH - 1`, having copied the characters
`i .. n-1`, all of them non-zero, and nothing else; it stops before the cap only on
a terminator of the source. -/
theorem copyLoop_spec (cfg : Config) (src : Nat → Nat)
    (hM : cfg.MAX_COMMAND_LENGTH ≤ 256) :
    ∀ (fuel i : Nat) (dst : Nat → Nat), i ≤ cfg.MAX_COMMAND_LENGTH - 1 →
      cfg.MAX_COMMAND_LENGTH - 1 - i < fuel →
      ∃ n dst', copyLoop cfg src fuel i dst = some (n, dst') ∧ i ≤ n ∧
        n ≤ cfg.MAX_COMMAND_LENGTH - 1 ∧
        (∀ j, i ≤ j → j < n → src j ≠ 0) ∧
        (n < cfg.MAX_COMMAND_LENGTH - 1 → src n = 0) ∧
        (∀ j, i ≤ j → j < n → dst' j = src j) ∧
        (∀ j, j < i ∨ n ≤ j → dst' j = dst j) := by
  intro fuel
  induction fuel with
  | zero => intro i dst _ h; omega
  | succ fuel ih =>
    intro i dst hi hf
    by_cases hc : src i ≠ 0 ∧ i < cfg.MAX_COMMAND_LENGTH - 1
    · have hmod : (i + 1) % 256 = i + 1 := Nat.mod_eq_of_lt (by omega)
      obtain ⟨n, dst', hrun, h1, h2, h3, h4, h5, h6⟩ :=
        ih (i + 1) (Function.update dst i (src i)) (by omega) (by omega)
      refine ⟨n, dst', ?_, by omega, h2, ?_, h4, ?_, ?_⟩
      · rw [copyLoop, if_pos hc, hmod]; exact hrun
      · intro j hj hjn
        rcases Nat.eq_or_lt_of_le hj with rfl | hlt
        · exact hc.1
        · exact h3 j hlt hjn
      · intro j hj hjn
        rcases Nat.eq_or_lt_of_le hj with rfl | hlt
        · rw [h6 i (Or.inl (by omega))]; simp
        · exact h5 j hlt hjn
      · intro j hj
        rw [h6 j (by omega), Function.update_noteq (by omega)]
    · refine ⟨i, dst, ?_, le_refl _, hi, ?_, ?_, ?_, ?_⟩
      · rw [copyLoop, if_neg hc]
      · intro j hj hjn; omega
      · intro hlt
        by_contra h0
        exact hc ⟨h0, hlt⟩
      · intro j hj hjn; omega
      · intro j _; rfl

/-- What `putCommand` does on a buffer that is not full. -/
theorem put_spec (cfg : Config) (hM : cfg.MAX_COMMAND_LENGTH ≤ 256) (s : State)
    (cmd : Nat → Nat) (hnf : s._full = false) :
    ∃ slot n, putCommand cfg s (some cmd) =
        some (1, { buffer := Function.update s.buffer s._tail slot, _head := s._head,
                   _tail := (s._tail + 1) % cfg.BUFFERSIZE,
                   _full := decide ((s._tail + 1) % cfg.BUFFERSIZE = s._head),
                   _numCommandsStored := s._numCommandsStored + 1 }) ∧
      n ≤ cfg.MAX_COMMAND_LENGTH - 1 ∧
      (∀ j, j < n → cmd j ≠ 0) ∧ (n < cfg.MAX_COMMAND_LENGTH - 1 → cmd n = 0) ∧
      (∀ j, j < n → slot j = cmd j) ∧ slot n = 0 ∧
      (∀ j, n < j → slot j = s.buffer s._tail j) := by
  obtain ⟨n, dst, hrun, -, h2, h3, h4, h5, h6⟩ :=
    copyLoop_spec cfg cmd hM loopFuel 0 (s.buffer s._tail) (Nat.zero_le _)
      (by unfold loopFuel; omega)
  refine ⟨Function.update dst n 0, n, ?_, h2, fun j hj => h3 j (Nat.zero_le _) hj, h4,
    ?_, ?_, ?_⟩
  · simp only [putCommand, hnf, hrun]
    by_cases h : (s._tail + 1) % cfg.BUFFERSIZE = s._head <;> simp [h]
  · intro j hj
    simp [Function.update_noteq (Nat.ne_of_lt hj), h5 j (Nat.zero_le _) hj]
  · simp
  · intro j hj
    simp [Function.update_noteq (Nat.ne_of_gt hj), h6 j (Or.inr (Nat.le_of_lt hj))]

/-- The loop of `getCommand` and `peekCommand` returns when `MAX_COMMAND_LENGTH ≤ 256`:
it stops at the first terminator of the source or at `MAX_COMMAND_LENGTH - 1`, and it
has stored character `j - 1` of the source at index `j` of the destination. -/
theorem copyOutLoop_spec (cfg : Config) (src : Nat → Nat)
    (hM : cfg.MAX_COMMAND_LENGTH ≤ 256) :
    ∀ (fuel i : Nat) (dst : Nat → Nat), i ≤ cfg.MAX_COMMAND_LENGTH - 1 → 256 - i < fuel →
      ∃ n dst', copyOutLoop cfg src fuel i dst = some (n, dst') ∧ i ≤ n ∧
        n ≤ cfg.MAX_COMMAND_LENGTH - 1 ∧
        (∀ j, i ≤ j → j < n → src j ≠ 0) ∧
        (n < cfg.MAX_COMMAND_LENGTH - 1 → src n = 0) ∧
        (∀ j, i < j → j ≤ n → dst' j = src (j - 1)) ∧
        (∀ j, j ≤ i ∨ n < j → dst' j = dst j) := by
  intro fuel
  induction fuel with
  | zero => intro i dst _ h; omega
  | succ fuel ih =>
    intro i dst hi hf
    by_cases hc : src i ≠ 0 ∧ i < cfg.MAX_COMMAND_LENGTH - 1
    · have hmod : (i + 1) % 256 = i + 1 := Nat.mod_eq_of_lt (by omega)
      obtain ⟨n, dst', hrun, h1, h2, h3, h4, h5, h6⟩ :=
        ih (i + 1) (Function.update dst (i + 1) (src i)) (by omega) (by omega)
      refine ⟨n, dst', ?_, by omega, h2, ?_, h4, ?_, ?_⟩
      · rw [copyOutLoop, if_pos hc, hmod]; exact hrun
      · intro j hj hjn
        rcases Nat.eq_or_lt_of_le hj with rfl | hlt
        · exact hc.1
        · exact h3 j hlt hjn
      · intro j hj hjn
        rcases Nat.eq_or_lt_of_le hj with heq | hlt
        · subst heq
          rw [h6 (i + 1) (Or.inl (le_refl _))]
          simp
        · exact h5 j hlt hjn
      · intro j hj
        rw [h6 j (by omega), Function.update_noteq (by omega)]
    · refine ⟨i, dst, ?_, le_refl _, hi, ?_, ?_, ?_, ?_⟩
      · rw [copyOutLoop, if_neg hc]
      · intro j hj hjn; omega
      · intro hlt
        by_contra h0
        exact hc ⟨h0, hlt⟩
      · intro j hj hjn; omega
      · intro j _; rfl

/-- What `getCommand` and `peekCommand` do on a buffer that is not empty: with `n` the
length of the string in the head slot, cut at `MAX_COMMAND_LENGTH - 1`, both store
character `j - 1` of the slot at index `j` of the caller memory for `0 < j < n` and a
terminator at index `n`; index `0` is not written unless `n = 0`.  `getCommand` also
releases the slot. -/
theorem get_spec (cfg : Config) (hM : cfg.MAX_COMMAND_LENGTH ≤ 256) (s : State)
    (out : Nat → Nat) (hne : isEmpty s = false) :
    ∃ out' n, getCommand cfg s (some out) =
        some (1, { buffer := s.buffer, _head := (s._head + 1) % cfg.BUFFERSIZE,
                   _tail := s._tail, _full := false,
                   _numCommandsStored := s._numCommandsStored - 1 }, some out') ∧
      peekCommand cfg s (some out) = some (1, s, some out') ∧
      n ≤ cfg.MAX_COMMAND_LENGTH - 1 ∧
      (∀ j, j < n → s.buffer s._head j ≠ 0) ∧
      (n < cfg.MAX_COMMAND_LENGTH - 1 → s.buffer s._head n = 0) ∧
      (∀ j, 0 < j → j < n → out' j = s.buffer s._head (j - 1)) ∧ out' n = 0 ∧
      (0 < n → out' 0 = out 0) ∧
      (∀ j, n < j → out' j = out j) := by
  obtain ⟨n, dst, hrun, -, h2, h3, h4, h5, h6⟩ :=
    copyOutLoop_spec cfg (s.buffer s._head) hM loopFuel 0 out (Nat.zero_le _)
      (by unfold loopFuel; omega)
  refine ⟨Function.update dst n 0, n, ?_, ?_, h2, fun j hj => h3 j (Nat.zero_le _) hj, h4,
    ?_, ?_, ?_, ?_⟩
  · simp only [getCommand, hne, hrun]
    rfl
  · simp only [peekCommand, hne, hrun]
    rfl
  · intro j hj hjn
    simp [Function.update_noteq (Nat.ne_of_lt hjn), h5 j hj (Nat.le_of_lt hjn)]
  · simp
  · intro hn
    simp [Function.update_noteq (Nat.ne_of_lt hn), h6 0 (Or.inl (le_refl _))]
  · intro j hj
    simp [Function.update_noteq (Nat.ne_of_gt hj), h6 j (Or.inr hj)]

theorem put_of_full (cfg : Config) (s : State) (cmd : Nat → Nat)
    (hfull : s._full = true) :
    putCommand cfg s (some cmd) = some (0, s) := by
  simp [putCommand, hfull]

/-- C3: on a full buffer `putCommand` with a non-null command returns the Full status
`0` and leaves the whole state (head, tail, full flag, stored count and every slot)
as it was. -/
theorem putCommand_full (cfg : Config) (s : State) (cmd : Nat → Nat)
    (hfull : s._full = true) :
    putCommand cfg s (some cmd) = some (0, s) :=
  put_of_full cfg s cmd hfull

theorem putCommand_full_witness :
    (⟨fun _ _ => 0, 1, 1, true, 3⟩ : State)._full = true ∧
    putCommand demoConfig ⟨fun _ _ => 0, 1, 1, true, 3⟩ (some (stringAt [72, 73])) =
      some (0, ⟨fun _ _ => 0, 1, 1, true, 3⟩) :=
  ⟨rfl, putCommand_full demoConfig ⟨fun _ _ => 0, 1, 1, true, 3⟩ (stringAt [72, 73]) rfl⟩

theorem get_peek_of_empty (cfg : Config) (s : State) (out : Nat → Nat)
    (hempty : isEmpty s = true) :
    getCommand cfg s (some out) = some (0, s, some (Function.update out 0 0)) ∧
    peekCommand cfg s (some out) = some (0, s, some (Function.update out 0 0)) := by
  simp [getCommand, peekCommand, hempty]

/-- C4: on an empty buffer `getCommand` and `peekCommand` with a non-null output
buffer both return the Empty status `0`, write a terminator at index `0` of the
output and nothing else, and leave the whole state as it was. -/
theorem getCommand_peekCommand_empty (cfg : Config) (s : State) (out : Nat → Nat)
    (hempty : isEmpty s = true) :
    getCommand cfg s (some out) = some (0, s, some (Function.update out 0 0)) ∧
    peekCommand cfg s (some out) = some (0, s, some (Function.update out 0 0)) :=
  get_peek_of_empty cfg s out hempty

theorem getCommand_peekCommand_empty_witness :
    isEmpty (new fun _ _ => 7) = true ∧
    getCommand demoConfig (new fun _ _ => 7) (some fun _ => 9) =
      some (0, new fun _ _ => 7, some (Function.update (fun _ => 9) 0 0)) ∧
    peekCommand demoConfig (new fun _ _ => 7) (some fun _ => 9) =
      some (0, new fun _ _ => 7, some (Function.update (fun _ => 9) 0 0)) :=
  ⟨rfl, getCommand_peekCommand_empty demoConfig (new fun _ _ => 7) (fun _ => 9) rfl⟩

theorem peek_same_state (cfg : Config) (hM : cfg.MAX_COMMAND_LENGTH ≤ 256) (s : State)
    (out : Ptr) :
    ∃ st out', peekCommand cfg s out = some (st, s, out') := by
  cases out with
  | none => exact ⟨2, none, rfl⟩
  | some o =>
    cases hempty : isEmpty s with
    | true => exact ⟨0, _, (get_peek_of_empty cfg s o hempty).2⟩
    | false =>
      obtain ⟨p, n, -, hpeek, -⟩ := get_spec cfg hM s o hempty
      exact ⟨1, some p, hpeek⟩

/-- C8: in every state and for every output pointer (null or not) `peekCommand` returns
with the state it was called in: head, tail, full flag, stored count and every slot
are unchanged, only the caller memory may differ. -/
theorem peekCommand_frame (cfg : Config) (hM : cfg.MAX_COMMAND_LENGTH ≤ 256) (s : State)
    (out : Ptr) :
    ∃ st out', peekCommand cfg s out = some (st, s, out') :=
  peek_same_state cfg hM s out

theorem peekCommand_frame_witness :
    demoConfig.MAX_COMMAND_LENGTH ≤ 256 ∧
    ∃ st out', peekCommand demoConfig ⟨fun _ => stringAt [72, 73], 2, 0, false, 1⟩
      (some fun _ => 9) = some (st, ⟨fun _ => stringAt [72, 73], 2, 0, false, 1⟩, out') :=
  ⟨by decide, peekCommand_frame demoConfig (by decide)
    ⟨fun _ => stringAt [72, 73], 2, 0, false, 1⟩ (some fun _ => 9)⟩

/-- C9 (what the code does instead): `putCommand` of `"HIJKL"` on the empty buffer with
`MAX_COMMAND_LENGTH = 4` returns `1` and stores `'H', 'I', 'J', '\0'` in the slot; the
`getCommand` that follows returns `1` but leaves index `0` of the output (filled with
`9`) as it was and writes `'H', 'I', '\0'` after it: the output is `9, 'H', 'I', '\0'`,
not the stored `'H', 'I', 'J', '\0'`. -/
theorem put_get_garbled :
    ((putCommand demoConfig (new fun _ _ => 7) (some (stringAt [72, 73, 74, 75, 76]))).bind
      fun p =>
        (getCommand demoConfig p.2 (some fun _ => 9)).map fun g =>
          (p.1, (List.range 4).map (p.2.buffer 0), g.1, firstChars 4 g.2.2)) =
      some (1, [72, 73, 74, 0], 1, some [9, 72, 73, 0]) := by
  decide

/-! ### Index arithmetic of the ring -/

theorem wrap_eq_iff (B h k : Nat) (hh : h < B) (hk : k ≤ B) :
    (h + k) % B = h ↔ k = 0 ∨ k = B := by
  constructor
  · intro e
    have h1 : h + k ≡ h + 0 [MOD B] := by
      show (h + k) % B = (h + 0) % B
      rw [e, Nat.add_zero, Nat.mod_eq_of_lt hh]
    have h2 : k % B = 0 % B := Nat.ModEq.add_left_cancel' h h1
    rcases Nat.eq_or_lt_of_le hk with hkB | hkB
    · exact Or.inr hkB
    · rw [Nat.mod_eq_of_lt hkB, Nat.zero_mod] at h2
      exact Or.inl h2
  · rintro (rfl | rfl)
    · rw [Nat.add_zero, Nat.mod_eq_of_lt hh]
    · rw [Nat.add_mod_right, Nat.mod_eq_of_lt hh]

theorem wrap_inj (B h j k : Nat) (hj : j < B) (hk : k < B)
    (e : (h + j) % B = (h + k) % B) : j = k :=
  Nat.ModEq.eq_of_lt_of_lt (Nat.ModEq.add_left_cancel' h e) hj hk

theorem Holds.full_iff {cfg : Config} {s : State} {k : Nat} (h : Holds cfg s k) :
    s._full = false ↔ k < cfg.BUFFERSIZE := by
  obtain ⟨-, -, hk, hf⟩ := h
  cases hfull : s._full
  · have : k ≠ cfg.BUFFERSIZE := fun e => by simp [hf.2 e] at hfull
    simp; omega
  · have := hf.1 hfull
    simp; omega

theorem Holds.empty_iff {cfg : Config} {s : State} {k : Nat} (h : Holds cfg s k) :
    isEmpty s = true ↔ k = 0 := by
  obtain ⟨hh, ht, hk, hf⟩ := h
  have hB : 0 < cfg.BUFFERSIZE := by omega
  constructor
  · intro he
    simp only [isEmpty, Bool.and_eq_true, Bool.not_eq_true', beq_iff_eq] at he
    have hw := (wrap_eq_iff cfg.BUFFERSIZE s._head k hh hk).1 (by rw [← ht, he.2])
    rcases hw with h0 | hB'
    · exact h0
    · have := hf.2 hB'
      simp [this] at he
  · rintro rfl
    have hnf : s._full = false := by
      cases hfull : s._full
      · rfl
      · have := hf.1 hfull
        omega
    simp only [isEmpty, hnf, Bool.not_false, Bool.true_and, beq_iff_eq]
    rw [ht, Nat.add_zero, Nat.mod_eq_of_lt hh]

/-- An empty state whose head is a slot holds no entry. -/
theorem holds_of_isEmpty (cfg : Config) (s : State) (hempty : isEmpty s = true)
    (hhead : s._head < cfg.BUFFERSIZE) : Holds cfg s 0 := by
  simp only [isEmpty, Bool.and_eq_true, Bool.not_eq_true', beq_iff_eq] at hempty
  refine ⟨hhead, ?_, Nat.zero_le _, ?_⟩
  · rw [Nat.add_zero, Nat.mod_eq_of_lt hhead, hempty.2]
  · simp [hempty.1]; omega

/-- A successful `putCommand` leaves one more entry. -/
theorem Holds.put {cfg : Config} {s : State} {k : Nat} (h : Holds cfg s k)
    (hk : k < cfg.BUFFERSIZE) (buffer : Nat → Nat → Nat) (count : Int) :
    Holds cfg { buffer := buffer, _head := s._head,
                _tail := (s._tail + 1) % cfg.BUFFERSIZE,
                _full := decide ((s._tail + 1) % cfg.BUFFERSIZE = s._head),
                _numCommandsStored := count } (k + 1) := by
  obtain ⟨hh, ht, -, -⟩ := h
  have htail : (s._tail + 1) % cfg.BUFFERSIZE = (s._head + (k + 1)) % cfg.BUFFERSIZE := by
    rw [ht, Nat.mod_add_mod, Nat.add_assoc]
  refine ⟨hh, htail, hk, ?_⟩
  simp only [decide_eq_true_eq]
  rw [htail, wrap_eq_iff cfg.BUFFERSIZE s._head (k + 1) hh hk]
  omega

/-- A successful `getCommand` leaves one entry less. -/
theorem Holds.get {cfg : Config} {s : State} {k : Nat} (h : Holds cfg s k) (hk : 0 < k)
    (buffer : Nat → Nat → Nat) (count : Int) :
    Holds cfg { buffer := buffer, _head := (s._head + 1) % cfg.BUFFERSIZE,
                _tail := s._tail, _full := false,
                _numCommandsStored := count } (k - 1) := by
  obtain ⟨hh, ht, hkB, -⟩ := h
  refine ⟨Nat.mod_lt _ (by omega), ?_, by omega, ?_⟩
  · show s._tail = ((s._head + 1) % cfg.BUFFERSIZE + (k - 1)) % cfg.BUFFERSIZE
    rw [ht, Nat.mod_add_mod]
    congr 1
    omega
  · simp; omega

/-- In a state that holds `k` entries the number of valid entries between head and
tail is `k`. -/
theorem Holds.validEntries {cfg : Config} {s : State} {k : Nat} (h : Holds cfg s k) :
    validEntries cfg s = (k : Int) := by
  obtain ⟨hh, ht, hk, hf⟩ := h
  unfold CommandBuffer.validEntries
  cases hfull : s._full
  · have hkB : k < cfg.BUFFERSIZE := by
      rcases Nat.eq_or_lt_of_le hk with e | e
      · have := hf.2 e
        simp [this] at hfull
      · exact e
    simp only [Bool.false_eq_true, if_false]
    rw [ht, Int.natCast_mod, Int.sub_emod, Int.emod_emod, ← Int.sub_emod]
    push_cast
    rw [add_sub_cancel_left]
    exact Int.emod_eq_of_lt (by omega) (by omega)
  · simp only [if_true]
    rw [hf.1 hfull]

/-- Every call that returns keeps the indices and the stored count those of a buffer
holding some number of entries. -/
theorem perform_holds (cfg : Config) (s s' : State) (c : Call) (status : Nat) (p : Ptr)
    (k : Nat) (h : Holds cfg s k) (hcount : s._numCommandsStored = (k : Int))
    (hp : perform cfg s c = some (status, s', p)) :
    ∃ k', Holds cfg s' k' ∧ s'._numCommandsStored = (k' : Int) := by
  cases c with
  | put command =>
    cases command with
    | none =>
      simp only [perform, putCommand, Option.some.injEq, Prod.mk.injEq] at hp
      obtain ⟨-, rfl, -⟩ := hp
      exact ⟨k, h, hcount⟩
    | some cmd =>
      cases hfull : s._full with
      | true =>
        simp only [perform, putCommand, hfull, if_true, Option.some.injEq,
          Prod.mk.injEq] at hp
        obtain ⟨-, rfl, -⟩ := hp
        exact ⟨k, h, hcount⟩
      | false =>
        cases hloop : copyLoop cfg cmd loopFuel 0 (s.buffer s._tail) with
        | none => simp [perform, putCommand, hfull, hloop] at hp
        | some r =>
          obtain ⟨i, slot⟩ := r
          simp only [perform, putCommand, hfull, hloop, Bool.false_eq_true, if_false,
            Option.some.injEq, Prod.mk.injEq] at hp
          obtain ⟨-, rfl, -⟩ := hp
          refine ⟨k + 1, ?_, ?_⟩
          · have := Holds.put h (h.full_iff.1 hfull)
              (Function.update s.buffer s._tail (Function.update slot i 0))
              (s._numCommandsStored + 1)
            simpa using this
          · show s._numCommandsStored + 1 = ((k + 1 : Nat) : Int)
            rw [hcount]; push_cast; rfl
  | get command =>
    cases command with
    | none =>
      simp only [perform, getCommand, Option.some.injEq, Prod.mk.injEq] at hp
      obtain ⟨-, rfl, -⟩ := hp
      exact ⟨k, h, hcount⟩
    | some out =>
      cases hempty : isEmpty s with
      | true =>
        simp only [perform, getCommand, hempty, if_true, Option.some.injEq,
          Prod.mk.injEq] at hp
        obtain ⟨-, rfl, -⟩ := hp
        exact ⟨k, h, hcount⟩
      | false =>
        cases hloop : copyOutLoop cfg (s.buffer s._head) loopFuel 0 out with
        | none => simp [perform, getCommand, hempty, hloop] at hp
        | some r =>
          obtain ⟨i, dst⟩ := r
          simp only [perform, getCommand, hempty, hloop, Bool.false_eq_true, if_false,
            Option.some.injEq, Prod.mk.injEq] at hp
          obtain ⟨-, rfl, -⟩ := hp
          have hk : 0 < k := by
            rcases Nat.eq_zero_or_pos k with h0 | h0
            · rw [h.empty_iff.2 h0] at hempty
              exact absurd hempty (by simp)
            · exact h0
          refine ⟨k - 1, Holds.get h hk s.buffer (s._numCommandsStored - 1), ?_⟩
          show s._numCommandsStored - 1 = ((k - 1 : Nat) : Int)
          rw [hcount]; omega
  | peek command =>
    cases command with
    | none =>
      simp only [perform, peekCommand, Option.some.injEq, Prod.mk.injEq] at hp
      obtain ⟨-, rfl, -⟩ := hp
      exact ⟨k, h, hcount⟩
    | some out =>
      cases hempty : isEmpty s with
      | true =>
        simp only [perform, peekCommand, hempty, if_true, Option.some.injEq,
          Prod.mk.injEq] at hp
        obtain ⟨-, rfl, -⟩ := hp
        exact ⟨k, h, hcount⟩
      | false =>
        cases hloop : copyOutLoop cfg (s.buffer s._head) loopFuel 0 out with
        | none => simp [perform, peekCommand, hempty, hloop] at hp
        | some r =>
          obtain ⟨i, dst⟩ := r
          simp only [perform, peekCommand, hempty, hloop, Bool.false_eq_true, if_false,
            Option.some.injEq, Prod.mk.injEq] at hp
          obtain ⟨-, rfl, -⟩ := hp
          exact ⟨k, h, hcount⟩

theorem run_holds (cfg : Config) :
    ∀ (calls : List Call) (s s' : State) (events : List Event) (k : Nat),
      Holds cfg s k → s._numCommandsStored = (k : Int) →
      run cfg s calls = some (s', events) →
      ∃ k', Holds cfg s' k' ∧ s'._numCommandsStored = (k' : Int) := by
  intro calls
  induction calls with
  | nil =>
    intro s s' events k h hcount hrun
    simp only [run, Option.some.injEq, Prod.mk.injEq] at hrun
    obtain ⟨rfl, -⟩ := hrun
    exact ⟨k, h, hcount⟩
  | cons c cs ih =>
    intro s s' events k h hcount hrun
    cases hp : perform cfg s c with
    | none => simp [run, hp] at hrun
    | some r =>
      obtain ⟨status, s1, p⟩ := r
      obtain ⟨k1, h1, hc1⟩ := perform_holds cfg s s1 c status p k h hcount hp
      cases hrest : run cfg s1 cs with
      | none => simp [run, hp, hrest] at hrun
      | some r' =>
        obtain ⟨s2, evs⟩ := r'
        simp only [run, hp, hrest, Option.some.injEq, Prod.mk.injEq] at hrun
        obtain ⟨rfl, -⟩ := hrun
        exact ih s1 s2 evs k1 h1 hc1 hrest

/-- C6: in every state reached from a new (empty) buffer by any sequence of
`putCommand`, `getCommand` and `peekCommand` calls with any arguments, the stored
count equals the number of valid entries between head and tail (`BUFFERSIZE` when the
full flag is set, `(tail - head) mod BUFFERSIZE` when it is clear), and it lies between
`0` and `BUFFERSIZE`. -/
theorem stored_count_invariant (cfg : Config) (hB : 0 < cfg.BUFFERSIZE)
    (buffer : Nat → Nat → Nat) (calls : List Call) (s : State) (events : List Event)
    (hrun : run cfg (new buffer) calls = some (s, events)) :
    s._numCommandsStored = validEntries cfg s ∧ 0 ≤ s._numCommandsStored ∧
      s._numCommandsStored ≤ (cfg.BUFFERSIZE : Int) := by
  have h0 : Holds cfg (new buffer) 0 := holds_of_isEmpty cfg (new buffer) rfl hB
  obtain ⟨k, hk, hc⟩ := run_holds cfg calls (new buffer) s events 0 h0 rfl hrun
  refine ⟨by rw [hk.validEntries, hc], by rw [hc]; omega, ?_⟩
  rw [hc]
  exact_mod_cast hk.2.2.1

theorem stored_count_invariant_witness :
    run demoConfig (new fun _ _ => 7) [.put (some (stringAt [72, 73])), .peek none] =
      some (⟨Function.update (fun _ _ => 7) 0
          (Function.update (Function.update (Function.update (fun _ => 7) 0 72) 1 73) 2 0),
        0, 1, false, 1⟩,
        [⟨.put (some (stringAt [72, 73])), 1, some (stringAt [72, 73])⟩, ⟨.peek none, 2, none⟩]) ∧
    (1 : Int) = validEntries demoConfig ⟨Function.update (fun _ _ => 7) 0
          (Function.update (Function.update (Function.update (fun _ => 7) 0 72) 1 73) 2 0),
        0, 1, false, 1⟩ ∧ (0 : Int) ≤ 1 ∧ (1 : Int) ≤ (demoConfig.BUFFERSIZE : Int) :=
  ⟨rfl, stored_count_invariant demoConfig (by decide) (fun _ _ => 7)
    [.put (some (stringAt [72, 73])), .peek none] _ _ rfl⟩

/-! ### Single calls on a buffer that holds `k` entries -/

theorem put_step (cfg : Config) (hM : cfg.MAX_COMMAND_LENGTH ≤ 256) (s : State) (k : Nat)
    (h : Holds cfg s k) (hk : k < cfg.BUFFERSIZE) (cmd : Nat → Nat) :
    ∃ s', putCommand cfg s (some cmd) = some (1, s') ∧ Holds cfg s' (k + 1) ∧
      s'._numCommandsStored = s._numCommandsStored + 1 := by
  obtain ⟨slot, n, hput, -⟩ := put_spec cfg hM s cmd (h.full_iff.2 hk)
  exact ⟨_, hput, Holds.put h hk _ _, rfl⟩

theorem get_step (cfg : Config) (hM : cfg.MAX_COMMAND_LENGTH ≤ 256) (s : State) (k : Nat)
    (h : Holds cfg s k) (hk : 0 < k) (out : Nat → Nat) :
    ∃ s' out', getCommand cfg s (some out) = some (1, s', some out') ∧
      Holds cfg s' (k - 1) ∧ s'._numCommandsStored = s._numCommandsStored - 1 := by
  have hne : isEmpty s = false := by
    cases he : isEmpty s
    · rfl
    · have := h.empty_iff.1 he
      omega
  obtain ⟨out', n, hget, -⟩ := get_spec cfg hM s out hne
  exact ⟨_, out', hget, Holds.get h hk _ _, rfl⟩

/-! ### Sequences of calls -/

theorem run_cons (cfg : Config) (s s1 s2 : State) (c : Call) (cs : List Call) (status : Nat)
    (p : Ptr) (events : List Event) (hp : perform cfg s c = some (status, s1, p))
    (hrest : run cfg s1 cs = some (s2, events)) :
    run cfg s (c :: cs) = some (s2, ⟨c, status, p⟩ :: events) := by
  simp [run, hp, hrest]

/-- C1 (what the code does instead): on the empty buffer the calls put `"HI"`, put
`"A"`, get, get (both into a memory filled with `9`) all return `1`, but the strings the
two gets leave in the output are `9, 'H'` and `9`, not the strings `"HI"` and `"A"` that
were put: `getCommand` never writes index `0` of the output and stores every character
one index late, so the last character of each command is lost. -/
theorem gets_garble_puts :
    (run demoConfig (new fun _ _ => 7)
        [.put (some (stringAt [72, 73])), .put (some (stringAt [65])),
         .get (some fun _ => 9), .get (some fun _ => 9)]).map
      (fun r => (r.2.map Event.status, putLog 4 r.2, getLog 4 r.2)) =
      some ([1, 1, 1, 1], [[72, 73], [65]], [[9, 72], [9]]) := by
  decide

/-- On a buffer with room for them, `putCommand` calls all succeed. -/
theorem run_puts (cfg : Config) (hM : cfg.MAX_COMMAND_LENGTH ≤ 256) :
    ∀ (cmds : List (Nat → Nat)) (s : State) (k : Nat), Holds cfg s k →
      k + cmds.length ≤ cfg.BUFFERSIZE →
      ∃ s' events, run cfg s (cmds.map fun c => Call.put (some c)) = some (s', events) ∧
        events.map Event.status = List.replicate cmds.length 1 ∧
        Holds cfg s' (k + cmds.length) ∧
        s'._numCommandsStored = s._numCommandsStored + (cmds.length : Int) := by
  intro cmds
  induction cmds with
  | nil =>
    intro s k h _
    exact ⟨s, [], rfl, rfl, h, by simp⟩
  | cons c cs ih =>
    intro s k h hk
    simp only [List.length_cons] at hk
    obtain ⟨s1, hput, h1, hc1⟩ := put_step cfg hM s k h (by omega) c
    obtain ⟨s', events, hrun, hst, hk', hc'⟩ := ih s1 (k + 1) h1 (by omega)
    have hp : perform cfg s (.put (some c)) = some (1, s1, some c) := by
      simp [perform, hput]
    refine ⟨s', _, run_cons cfg s s1 s' _ _ 1 _ events hp hrun, ?_, ?_, ?_⟩
    · simp [hst, List.replicate_succ]
    · have e : k + (c :: cs).length = k + 1 + cs.length := by
        simp only [List.length_cons]; omega
      rw [e]; exact hk'
    · rw [hc', hc1]
      simp only [List.length_cons]
      push_cast
      omega

/-- On a buffer that holds enough entries, `getCommand` calls all succeed. -/
theorem run_gets (cfg : Config) (hM : cfg.MAX_COMMAND_LENGTH ≤ 256) :
    ∀ (outs : List (Nat → Nat)) (s : State) (k : Nat), Holds cfg s k →
      outs.length ≤ k →
      ∃ s' events, run cfg s (outs.map fun o => Call.get (some o)) = some (s', events) ∧
        events.map Event.status = List.replicate outs.length 1 ∧
        Holds cfg s' (k - outs.length) ∧
        s'._numCommandsStored = s._numCommandsStored - (outs.length : Int) := by
  intro outs
  induction outs with
  | nil =>
    intro s k h _
    exact ⟨s, [], rfl, rfl, h, by simp⟩
  | cons o os ih =>
    intro s k h hk
    simp only [List.length_cons] at hk
    obtain ⟨s1, out', hget, h1, hc1⟩ := get_step cfg hM s k h (by omega) o
    obtain ⟨s', events, hrun, hst, hk', hc'⟩ := ih s1 (k - 1) h1 (by omega)
    refine ⟨s', _, run_cons cfg s s1 s' _ _ 1 _ events hget hrun, ?_, ?_, ?_⟩
    · simp [hst, List.replicate_succ]
    · have e : k - (o :: os).length = k - 1 - os.length := by
        simp only [List.length_cons]; omega
      rw [e]; exact hk'
    · rw [hc', hc1]
      simp only [List.length_cons]
      push_cast
      omega

/-- C5: start from an empty buffer (head a slot, stored count `0`) and let
`N ≤ BUFFERSIZE`.  `N` calls of `putCommand` all return `1`, the `N` calls of
`getCommand` that follow all return `1` and leave the stored count at `0`; then
`BUFFERSIZE` further calls of `putCommand` all return `1`, and the next call of
`putCommand` returns the Full status `0`. -/
theorem roundtrip (cfg : Config) (hM : cfg.MAX_COMMAND_LENGTH ≤ 256) (s : State)
    (hempty : isEmpty s = true) (hhead : s._head < cfg.BUFFERSIZE)
    (hcount : s._numCommandsStored = 0) (N : Nat) (hN : N ≤ cfg.BUFFERSIZE)
    (cmds outs more : List (Nat → Nat)) (hcmds : cmds.length = N)
    (houts : outs.length = N) (hmore : more.length = cfg.BUFFERSIZE) (last : Nat → Nat) :
    ∃ s1 e1 s2 e2 s3 e3,
      run cfg s (cmds.map fun c => Call.put (some c)) = some (s1, e1) ∧
      e1.map Event.status = List.replicate N 1 ∧
      run cfg s1 (outs.map fun o => Call.get (some o)) = some (s2, e2) ∧
      e2.map Event.status = List.replicate N 1 ∧
      s2._numCommandsStored = 0 ∧
      run cfg s2 (more.map fun c => Call.put (some c)) = some (s3, e3) ∧
      e3.map Event.status = List.replicate cfg.BUFFERSIZE 1 ∧
      putCommand cfg s3 (some last) = some (0, s3) := by
  have h0 := holds_of_isEmpty cfg s hempty hhead
  obtain ⟨s1, e1, hrun1, hst1, h1, hc1⟩ := run_puts cfg hM cmds s 0 h0 (by omega)
  obtain ⟨s2, e2, hrun2, hst2, h2, hc2⟩ :=
    run_gets cfg hM outs s1 (0 + cmds.length) h1 (by omega)
  have hk2 : 0 + cmds.length - outs.length = 0 := by omega
  rw [hk2] at h2
  obtain ⟨s3, e3, hrun3, hst3, h3, -⟩ := run_puts cfg hM more s2 0 h2 (by omega)
  refine ⟨s1, e1, s2, e2, s3, e3, hrun1, hcmds ▸ hst1, hrun2, houts ▸ hst2, ?_, hrun3,
    hmore ▸ hst3, ?_⟩
  · rw [hc2, hc1, hcount, hcmds, houts]
    omega
  · apply put_of_full
    exact h3.2.2.2.2 (by omega)

theorem roundtrip_witness :
    isEmpty (new fun _ _ => 7) = true ∧ 2 ≤ demoConfig.BUFFERSIZE ∧
    ∃ s1 e1 s2 e2 s3 e3,
      run demoConfig (new fun _ _ => 7)
        ([stringAt [72, 73], stringAt [65]].map fun c => Call.put (some c)) = some (s1, e1) ∧
      e1.map Event.status = List.replicate 2 1 ∧
      run demoConfig s1 ([fun _ => 9, fun _ => 5].map fun o => Call.get (some o)) =
        some (s2, e2) ∧
      e2.map Event.status = List.replicate 2 1 ∧
      s2._numCommandsStored = 0 ∧
      run demoConfig s2
        ([stringAt [80], stringAt [81], stringAt [82]].map fun c => Call.put (some c)) =
        some (s3, e3) ∧
      e3.map Event.status = List.replicate demoConfig.BUFFERSIZE 1 ∧
      putCommand demoConfig s3 (some (stringAt [83])) = some (0, s3) :=
  ⟨rfl, by decide, roundtrip demoConfig (by decide) (new fun _ _ => 7) rfl (by decide) rfl 2
    (by decide) [stringAt [72, 73], stringAt [65]] [fun _ => 9, fun _ => 5]
    [stringAt [80], stringAt [81], stringAt [82]] rfl rfl rfl (stringAt [83])⟩

/-! ### The elements of the arrays that the calls touch -/

/-- Without its record the traced copy loop is the copy loop. -/
theorem copyLoopTraced_erase (cfg : Config) (src : Nat → Nat) (rd wr : Nat → Access) :
    ∀ (fuel i : Nat) (dst : Nat → Nat) (touched : List Access),
      (copyLoopTraced cfg src rd wr fuel i dst touched).map (fun r => (r.1, r.2.1)) =
        copyLoop cfg src fuel i dst := by
  intro fuel
  induction fuel with
  | zero => intro i dst touched; rfl
  | succ fuel ih =>
    intro i dst touched
    by_cases hc : src i ≠ 0 ∧ i < cfg.MAX_COMMAND_LENGTH - 1
    · rw [copyLoopTraced, copyLoop, if_pos hc, if_pos hc]
      exact ih _ _ _
    · rw [copyLoopTraced, copyLoop, if_neg hc, if_neg hc]
      rfl

/-- Without its record the traced loop of `getCommand` is the loop. -/
theorem copyOutLoopTraced_erase (cfg : Config) (src : Nat → Nat) (rd wr : Nat → Access) :
    ∀ (fuel i : Nat) (dst : Nat → Nat) (touched : List Access),
      (copyOutLoopTraced cfg src rd wr fuel i dst touched).map (fun r => (r.1, r.2.1)) =
        copyOutLoop cfg src fuel i dst := by
  intro fuel
  induction fuel with
  | zero => intro i dst touched; rfl
  | succ fuel ih =>
    intro i dst touched
    by_cases hc : src i ≠ 0 ∧ i < cfg.MAX_COMMAND_LENGTH - 1
    · rw [copyOutLoopTraced, copyOutLoop, if_pos hc, if_pos hc]
      exact ih _ _ _
    · rw [copyOutLoopTraced, copyOutLoop, if_neg hc, if_neg hc]
      rfl

/-- Without its record a traced call is the call. -/
theorem performTraced_erase (cfg : Config) (s : State) (c : Call) :
    (performTraced cfg s c).map (fun r => (r.1, r.2.1, r.2.2.1)) = perform cfg s c := by
  cases c with
  | put command =>
    cases command with
    | none => rfl
    | some cmd =>
      cases hfull : s._full with
      | true => simp [performTraced, perform, putCommandTraced, putCommand, hfull]
      | false =>
        have he := copyLoopTraced_erase cfg cmd Access.caller (Access.slot s._tail) loopFuel 0
          (s.buffer s._tail) []
        cases ht : copyLoopTraced cfg cmd Access.caller (Access.slot s._tail) loopFuel 0
            (s.buffer s._tail) [] with
        | none =>
          rw [ht] at he
          simp [performTraced, perform, putCommandTraced, putCommand, hfull, ht, ← he]
        | some r =>
          rw [ht] at he
          simp [performTraced, perform, putCommandTraced, putCommand, hfull, ht, ← he]
  | get command =>
    cases command with
    | none => rfl
    | some out =>
      cases hempty : isEmpty s with
      | true => simp [performTraced, perform, getCommandTraced, getCommand, hempty]
      | false =>
        have he := copyOutLoopTraced_erase cfg (s.buffer s._head) (Access.slot s._head)
          Access.caller loopFuel 0 out []
        cases ht : copyOutLoopTraced cfg (s.buffer s._head) (Access.slot s._head) Access.caller
            loopFuel 0 out [] with
        | none =>
          rw [ht] at he
          simp [performTraced, perform, getCommandTraced, getCommand, hempty, ht, ← he]
        | some r =>
          rw [ht] at he
          simp [performTraced, perform, getCommandTraced, getCommand, hempty, ht, ← he]
  | peek command =>
    cases command with
    | none => rfl
    | some out =>
      cases hempty : isEmpty s with
      | true => simp [performTraced, perform, peekCommandTraced, peekCommand, hempty]
      | false =>
        have he := copyOutLoopTraced_erase cfg (s.buffer s._head) (Access.slot s._head)
          Access.caller loopFuel 0 out []
        cases ht : copyOutLoopTraced cfg (s.buffer s._head) (Access.slot s._head) Access.caller
            loopFuel 0 out [] with
        | none =>
          rw [ht] at he
          simp [performTraced, perform, peekCommandTraced, peekCommand, hempty, ht, ← he]
        | some r =>
          rw [ht] at he
          simp [performTraced, perform, peekCommandTraced, peekCommand, hempty, ht, ← he]

/-- Without its record of elements a traced run is the run. -/
theorem runTraced_erase (cfg : Config) :
    ∀ (calls : List Call) (s : State),
      (runTraced cfg s calls).map (fun r => (r.1, r.2.1)) = run cfg s calls := by
  intro calls
  induction calls with
  | nil => intro s; rfl
  | cons c cs ih =>
    intro s
    have hp := performTraced_erase cfg s c
    cases ht : performTraced cfg s c with
    | none =>
      rw [ht] at hp
      simp [runTraced, run, ht, ← hp]
    | some r =>
      obtain ⟨status, s1, p, touched⟩ := r
      rw [ht] at hp
      have hr := ih s1
      cases hrest : runTraced cfg s1 cs with
      | none =>
        rw [hrest] at hr
        simp [runTraced, run, ht, hrest, ← hp, ← hr]
      | some r' =>
        rw [hrest] at hr
        simp [runTraced, run, ht, hrest, ← hp, ← hr]

/-- The counter of the copy loop never passes `MAX_COMMAND_LENGTH - 1`, whatever the
source and however long the loop runs: every element the loop touches has an index of
at most `MAX_COMMAND_LENGTH - 1`, and so has the counter it stops at. -/
theorem copyLoopTraced_bound (cfg : Config) (src : Nat → Nat) (rd wr : Nat → Access)
    (P : Access → Prop)
    (hP : ∀ j, j ≤ cfg.MAX_COMMAND_LENGTH - 1 → P (rd j) ∧ P (wr j)) :
    ∀ (fuel i : Nat) (dst : Nat → Nat) (touched : List Access) (n : Nat) (dst' : Nat → Nat)
      (touched' : List Access), i ≤ cfg.MAX_COMMAND_LENGTH - 1 →
      (∀ a, a ∈ touched → P a) →
      copyLoopTraced cfg src rd wr fuel i dst touched = some (n, dst', touched') →
      n ≤ cfg.MAX_COMMAND_LENGTH - 1 ∧ ∀ a, a ∈ touched' → P a := by
  intro fuel
  induction fuel with
  | zero =>
    intro i dst touched n dst' touched' _ _ h
    simp [copyLoopTraced] at h
  | succ fuel ih =>
    intro i dst touched n dst' touched' hi hacc h
    by_cases hc : src i ≠ 0 ∧ i < cfg.MAX_COMMAND_LENGTH - 1
    · rw [copyLoopTraced, if_pos hc] at h
      have hnext : (i + 1) % 256 ≤ cfg.MAX_COMMAND_LENGTH - 1 :=
        le_trans (Nat.mod_le _ _) (by omega)
      refine ih _ _ _ n dst' touched' hnext ?_ h
      intro a ha
      simp only [List.mem_append, List.mem_cons, List.mem_singleton, List.not_mem_nil,
        or_false] at ha
      rcases ha with ha | rfl | rfl | rfl
      · exact hacc a ha
      · exact (hP i hi).1
      · exact (hP i hi).1
      · exact (hP i hi).2
    · rw [copyLoopTraced, if_neg hc] at h
      simp only [Option.some.injEq, Prod.mk.injEq] at h
      obtain ⟨rfl, -, rfl⟩ := h
      refine ⟨hi, ?_⟩
      intro a ha
      simp only [List.mem_append, List.mem_singleton] at ha
      rcases ha with ha | rfl
      · exact hacc a ha
      · exact (hP i hi).1

/-- The counter of the loop of `getCommand` never passes `MAX_COMMAND_LENGTH - 1`
either: the loop body runs with the counter below `MAX_COMMAND_LENGTH - 1`, so the
index it writes, one further, is at most `MAX_COMMAND_LENGTH - 1`. -/
theorem copyOutLoopTraced_bound (cfg : Config) (src : Nat → Nat) (rd wr : Nat → Access)
    (P : Access → Prop)
    (hP : ∀ j, j ≤ cfg.MAX_COMMAND_LENGTH - 1 → P (rd j) ∧ P (wr j)) :
    ∀ (fuel i : Nat) (dst : Nat → Nat) (touched : List Access) (n : Nat) (dst' : Nat → Nat)
      (touched' : List Access), i ≤ cfg.MAX_COMMAND_LENGTH - 1 →
      (∀ a, a ∈ touched → P a) →
      copyOutLoopTraced cfg src rd wr fuel i dst touched = some (n, dst', touched') →
      n ≤ cfg.MAX_COMMAND_LENGTH - 1 ∧ ∀ a, a ∈ touched' → P a := by
  intro fuel
  induction fuel with
  | zero =>
    intro i dst touched n dst' touched' _ _ h
    simp [copyOutLoopTraced] at h
  | succ fuel ih =>
    intro i dst touched n dst' touched' hi hacc h
    by_cases hc : src i ≠ 0 ∧ i < cfg.MAX_COMMAND_LENGTH - 1
    · rw [copyOutLoopTraced, if_pos hc] at h
      have hnext : (i + 1) % 256 ≤ cfg.MAX_COMMAND_LENGTH - 1 :=
        le_trans (Nat.mod_le _ _) (by omega)
      refine ih _ _ _ n dst' touched' hnext ?_ h
      intro a ha
      simp only [List.mem_append, List.mem_cons, List.mem_singleton, List.not_mem_nil,
        or_false] at ha
      rcases ha with ha | rfl | rfl | rfl
      · exact hacc a ha
      · exact (hP i hi).1
      · exact (hP i hi).1
      · exact (hP _ hnext).2
    · rw [copyOutLoopTraced, if_neg hc] at h
      simp only [Option.some.injEq, Prod.mk.injEq] at h
      obtain ⟨rfl, -, rfl⟩ := h
      refine ⟨hi, ?_⟩
      intro a ha
      simp only [List.mem_append, List.mem_singleton] at ha
      rcases ha with ha | rfl
      · exact hacc a ha
      · exact (hP i hi).1

/-- A call that returns on a buffer holding `k` terminated entries touches elements of
the arrays only, and leaves a buffer holding some number of terminated entries. -/
theorem performTraced_safe (cfg : Config) (hM : 0 < cfg.MAX_COMMAND_LENGTH) (s s' : State)
    (c : Call) (status : Nat) (p : Ptr) (touched : List Access) (k : Nat)
    (h : Holds cfg s k) (hterm : Terminated cfg s k)
    (hp : performTraced cfg s c = some (status, s', p, touched)) :
    (∃ k', Holds cfg s' k' ∧ Terminated cfg s' k') ∧
      ∀ a, a ∈ touched → a.InBounds cfg := by
  have hB : 0 < cfg.BUFFERSIZE := Nat.lt_of_le_of_lt (Nat.zero_le _) h.1
  have htail : s._tail < cfg.BUFFERSIZE := by
    rw [h.2.1]
    exact Nat.mod_lt _ hB
  have hcaller : ∀ j, j ≤ cfg.MAX_COMMAND_LENGTH - 1 → (Access.caller j).InBounds cfg :=
    fun j hj => hj
  have hslot : ∀ x, x < cfg.BUFFERSIZE → ∀ j, j ≤ cfg.MAX_COMMAND_LENGTH - 1 →
      (Access.slot x j).InBounds cfg := fun x hx j hj => ⟨hx, by omega⟩
  cases c with
  | put command =>
    cases command with
    | none =>
      simp only [performTraced, putCommandTraced, Option.some.injEq, Prod.mk.injEq] at hp
      obtain ⟨-, rfl, -, rfl⟩ := hp
      exact ⟨⟨k, h, hterm⟩, by simp⟩
    | some cmd =>
      cases hfull : s._full with
      | true =>
        simp only [performTraced, putCommandTraced, hfull, if_true, Option.some.injEq,
          Prod.mk.injEq] at hp
        obtain ⟨-, rfl, -, rfl⟩ := hp
        exact ⟨⟨k, h, hterm⟩, by simp⟩
      | false =>
        cases hloop : copyLoopTraced cfg cmd Access.caller (Access.slot s._tail) loopFuel 0
            (s.buffer s._tail) [] with
        | none => simp [performTraced, putCommandTraced, hfull, hloop] at hp
        | some r =>
          obtain ⟨i, slot, acc⟩ := r
          obtain ⟨hi, hacc⟩ := copyLoopTraced_bound cfg cmd Access.caller
            (Access.slot s._tail) (Access.InBounds cfg)
            (fun j hj => ⟨hcaller j hj, hslot _ htail j hj⟩) loopFuel 0 _ [] i slot acc
            (Nat.zero_le _) (by simp) hloop
          simp only [performTraced, putCommandTraced, hfull, hloop, Bool.false_eq_true,
            if_false, Option.some.injEq, Prod.mk.injEq] at hp
          obtain ⟨-, rfl, -, rfl⟩ := hp
          have hk : k < cfg.BUFFERSIZE := h.full_iff.1 hfull
          refine ⟨⟨k + 1, ?_, ?_⟩, ?_⟩
          · have := Holds.put h hk
              (Function.update s.buffer s._tail (Function.update slot i 0))
              (s._numCommandsStored + 1)
            simpa using this
          · intro j hj
            rcases Nat.eq_or_lt_of_le (Nat.le_of_lt_succ hj) with rfl | hlt
            · refine ⟨i, hi, ?_⟩
              show Function.update s.buffer s._tail (Function.update slot i 0)
                ((s._head + j) % cfg.BUFFERSIZE) i = 0
              rw [← h.2.1, Function.update_same, Function.update_same]
            · obtain ⟨n, hn, h0⟩ := hterm j hlt
              refine ⟨n, hn, ?_⟩
              have hne : (s._head + j) % cfg.BUFFERSIZE ≠ s._tail := by
                rw [h.2.1]
                intro e
                have := wrap_inj cfg.BUFFERSIZE s._head j k (by omega) hk e
                omega
              show Function.update s.buffer s._tail (Function.update slot i 0)
                ((s._head + j) % cfg.BUFFERSIZE) n = 0
              rw [Function.update_noteq hne]
              exact h0
          · intro a ha
            simp only [List.mem_append, List.mem_singleton] at ha
            rcases ha with ha | rfl
            · exact hacc a ha
            · exact hslot _ htail i hi
  | get command =>
    cases command with
    | none =>
      simp only [performTraced, getCommandTraced, Option.some.injEq, Prod.mk.injEq] at hp
      obtain ⟨-, rfl, -, rfl⟩ := hp
      exact ⟨⟨k, h, hterm⟩, by simp⟩
    | some out =>
      cases hempty : isEmpty s with
      | true =>
        simp only [performTraced, getCommandTraced, hempty, if_true, Option.some.injEq,
          Prod.mk.injEq] at hp
        obtain ⟨-, rfl, -, rfl⟩ := hp
        refine ⟨⟨k, h, hterm⟩, ?_⟩
        intro a ha
        simp only [List.mem_singleton] at ha
        subst ha
        exact hcaller 0 (Nat.zero_le _)
      | false =>
        cases hloop : copyOutLoopTraced cfg (s.buffer s._head) (Access.slot s._head)
            Access.caller loopFuel 0 out [] with
        | none => simp [performTraced, getCommandTraced, hempty, hloop] at hp
        | some r =>
          obtain ⟨i, dst, acc⟩ := r
          obtain ⟨hi, hacc⟩ := copyOutLoopTraced_bound cfg (s.buffer s._head)
            (Access.slot s._head) Access.caller (Access.InBounds cfg)
            (fun j hj => ⟨hslot _ h.1 j hj, hcaller j hj⟩) loopFuel 0 _ [] i dst acc
            (Nat.zero_le _) (by simp) hloop
          simp only [performTraced, getCommandTraced, hempty, hloop, Bool.false_eq_true,
            if_false, Option.some.injEq, Prod.mk.injEq] at hp
          obtain ⟨-, rfl, -, rfl⟩ := hp
          have hk : 0 < k := by
            rcases Nat.eq_zero_or_pos k with h0 | h0
            · rw [h.empty_iff.2 h0] at hempty
              exact absurd hempty (by simp)
            · exact h0
          refine ⟨⟨k - 1, Holds.get h hk s.buffer (s._numCommandsStored - 1), ?_⟩, ?_⟩
          · intro j hj
            obtain ⟨n, hn, h0⟩ := hterm (j + 1) (by omega)
            refine ⟨n, hn, ?_⟩
            show s.buffer (((s._head + 1) % cfg.BUFFERSIZE + j) % cfg.BUFFERSIZE) n = 0
            rw [Nat.mod_add_mod, Nat.add_assoc, Nat.add_comm 1 j]
            exact h0
          · intro a ha
            simp only [List.mem_append, List.mem_singleton] at ha
            rcases ha with ha | rfl
            · exact hacc a ha
            · exact hcaller i hi
  | peek command =>
    cases command with
    | none =>
      simp only [performTraced, peekCommandTraced, Option.some.injEq, Prod.mk.injEq] at hp
      obtain ⟨-, rfl, -, rfl⟩ := hp
      exact ⟨⟨k, h, hterm⟩, by simp⟩
    | some out =>
      cases hempty : isEmpty s with
      | true =>
        simp only [performTraced, peekCommandTraced, hempty, if_true, Option.some.injEq,
          Prod.mk.injEq] at hp
        obtain ⟨-, rfl, -, rfl⟩ := hp
        refine ⟨⟨k, h, hterm⟩, ?_⟩
        intro a ha
        simp only [List.mem_singleton] at ha
        subst ha
        exact hcaller 0 (Nat.zero_le _)
      | false =>
        cases hloop : copyOutLoopTraced cfg (s.buffer s._head) (Access.slot s._head)
            Access.caller loopFuel 0 out [] with
        | none => simp [performTraced, peekCommandTraced, hempty, hloop] at hp
        | some r =>
          obtain ⟨i, dst, acc⟩ := r
          obtain ⟨hi, hacc⟩ := copyOutLoopTraced_bound cfg (s.buffer s._head)
            (Access.slot s._head) Access.caller (Access.InBounds cfg)
            (fun j hj => ⟨hslot _ h.1 j hj, hcaller j hj⟩) loopFuel 0 _ [] i dst acc
            (Nat.zero_le _) (by simp) hloop
          simp only [performTraced, peekCommandTraced, hempty, hloop, Bool.false_eq_true,
            if_false, Option.some.injEq, Prod.mk.injEq] at hp
          obtain ⟨-, rfl, -, rfl⟩ := hp
          refine ⟨⟨k, h, hterm⟩, ?_⟩
          intro a ha
          simp only [List.mem_append, List.mem_singleton] at ha
          rcases ha with ha | rfl
          · exact hacc a ha
          · exact hcaller i hi

/-- Every run that returns on a buffer holding `k` terminated entries touches elements
of the arrays only, and ends on a buffer holding some number of terminated entries. -/
theorem runTraced_safe (cfg : Config) (hM : 0 < cfg.MAX_COMMAND_LENGTH) :
    ∀ (calls : List Call) (s s' : State) (events : List Event) (touched : List Access)
      (k : Nat), Holds cfg s k → Terminated cfg s k →
      runTraced cfg s calls = some (s', events, touched) →
      (∃ k', Holds cfg s' k' ∧ Terminated cfg s' k') ∧
        ∀ a, a ∈ touched → a.InBounds cfg := by
  intro calls
  induction calls with
  | nil =>
    intro s s' events touched k h hterm hrun
    simp only [runTraced, Option.some.injEq, Prod.mk.injEq] at hrun
    obtain ⟨rfl, -, rfl⟩ := hrun
    exact ⟨⟨k, h, hterm⟩, by simp⟩
  | cons c cs ih =>
    intro s s' events touched k h hterm hrun
    cases hp : performTraced cfg s c with
    | none => simp [runTraced, hp] at hrun
    | some r =>
      obtain ⟨status, s1, p, acc1⟩ := r
      obtain ⟨⟨k1, h1, ht1⟩, hacc1⟩ :=
        performTraced_safe cfg hM s s1 c status p acc1 k h hterm hp
      cases hrest : runTraced cfg s1 cs with
      | none => simp [runTraced, hp, hrest] at hrun
      | some r' =>
        obtain ⟨s2, evs, acc2⟩ := r'
        simp only [runTraced, hp, hrest, Option.some.injEq, Prod.mk.injEq] at hrun
        obtain ⟨rfl, -, rfl⟩ := hrun
        obtain ⟨hk2, hacc2⟩ := ih s1 s2 evs acc2 k1 h1 ht1 hrest
        refine ⟨hk2, ?_⟩
        intro a ha
        rcases List.mem_append.1 ha with ha | ha
        · exact hacc1 a ha
        · exact hacc2 a ha

/-- C21: let there be at least one slot and at least one character per slot.  Start from
a new buffer (head and tail at `0`, full flag clear) and run any sequence of
`putCommand`, `getCommand` and `peekCommand` calls with any arguments.  Afterwards head
and tail are below `BUFFERSIZE`; every element the calls read or wrote is in bounds,
a slot element `buffer[slot][index]` having `slot < BUFFERSIZE` and
`index < MAX_COMMAND_LENGTH`, an element of caller memory an index of at most
`MAX_COMMAND_LENGTH - 1`; and every stored entry has a terminator at an index of at most
`MAX_COMMAND_LENGTH - 1` of its slot.  The run is the one of the other properties with
the touched elements recorded. -/
theorem accesses_in_bounds (cfg : Config) (hB : 0 < cfg.BUFFERSIZE)
    (hM : 0 < cfg.MAX_COMMAND_LENGTH) (buffer : Nat → Nat → Nat) (calls : List Call)
    (s : State) (events : List Event) (touched : List Access)
    (hrun : runTraced cfg (new buffer) calls = some (s, events, touched)) :
    run cfg (new buffer) calls = some (s, events) ∧
    s._head < cfg.BUFFERSIZE ∧ s._tail < cfg.BUFFERSIZE ∧
    (∀ a, a ∈ touched → a.InBounds cfg) ∧
    (∀ j : Nat, (j : Int) < validEntries cfg s →
      ∃ n, n ≤ cfg.MAX_COMMAND_LENGTH - 1 ∧
        s.buffer ((s._head + j) % cfg.BUFFERSIZE) n = 0) := by
  have herase := runTraced_erase cfg calls (new buffer)
  rw [hrun] at herase
  have h0 : Holds cfg (new buffer) 0 := holds_of_isEmpty cfg (new buffer) rfl hB
  have ht0 : Terminated cfg (new buffer) 0 := fun j hj => absurd hj (Nat.not_lt_zero j)
  obtain ⟨⟨k, hk, hterm⟩, hacc⟩ :=
    runTraced_safe cfg hM calls (new buffer) s events touched 0 h0 ht0 hrun
  refine ⟨herase.symm, hk.1, ?_, hacc, ?_⟩
  · rw [hk.2.1]
    exact Nat.mod_lt _ hB
  · intro j hj
    rw [hk.validEntries] at hj
    exact hterm j (by exact_mod_cast hj)

theorem accesses_in_bounds_witness :
    0 < demoConfig.BUFFERSIZE ∧ 0 < demoConfig.MAX_COMMAND_LENGTH ∧
    ∃ s events touched,
      runTraced demoConfig (new fun _ _ => 7)
        [.put (some (stringAt [72, 73])), .put (some (stringAt [65, 66, 67, 68, 69])),
         .peek (some fun _ => 9), .get (some fun _ => 9), .get none] =
        some (s, events, touched) ∧
      run demoConfig (new fun _ _ => 7)
        [.put (some (stringAt [72, 73])), .put (some (stringAt [65, 66, 67, 68, 69])),
         .peek (some fun _ => 9), .get (some fun _ => 9), .get none] = some (s, events) ∧
      s._head < demoConfig.BUFFERSIZE ∧ s._tail < demoConfig.BUFFERSIZE ∧
      (∀ a, a ∈ touched → a.InBounds demoConfig) ∧
      (∀ j : Nat, (j : Int) < validEntries demoConfig s →
        ∃ n, n ≤ demoConfig.MAX_COMMAND_LENGTH - 1 ∧
          s.buffer ((s._head + j) % demoConfig.BUFFERSIZE) n = 0) := by
  obtain ⟨r, h⟩ := Option.isSome_iff_exists.1
    (show (runTraced demoConfig (new fun _ _ => 7)
      [.put (some (stringAt [72, 73])), .put (some (stringAt [65, 66, 67, 68, 69])),
       .peek (some fun _ => 9), .get (some fun _ => 9), .get none]).isSome = true
      from by decide)
  obtain ⟨s, events, touched⟩ := r
  exact ⟨by decide, by decide, s, events, touched, h,
    accesses_in_bounds demoConfig (by decide) (by decide) (fun _ _ => 7) _ s events touched h⟩

end CommandBuffer

namespace MotionProcessor

/-- C2 (what the code does instead): the tick handler `bresenham()` has an empty
body.  Whatever move was planned and however many ticks are run, the coordinator is
left as it was: no pin is written, so no axis receives a step pulse, and the deltas
stay what they were, so the move never completes.  For the planned move `(3, 1)` the
three ticks that should bring three pan pulses and one tilt pulse bring none. -/
theorem bresenham_issues_no_pulse (mp : State) (ticks stepPin : Nat) :
    bresenham^[ticks] mp = mp ∧
    stepPulses stepPin (bresenham^[ticks] mp) = stepPulses stepPin mp ∧
    stepPulses stepPin (bresenham^[3] demoState) = 0 ∧
    (bresenham^[3] demoState)._delta 0 = 3 := by
  have h : bresenham^[ticks] mp = mp := Function.iterate_fixed rfl ticks
  refine ⟨h, by rw [h], rfl, rfl⟩

/-- C10: let the limits of each axis be ordered (`MIN ≤ MAX`).  After `setPanSpeed`
the stored pan speed is `PAN_MIN_SPEED` for a request below it, `PAN_MAX_SPEED` for a
request above it, and the request itself when it lies between the two; after
`setTiltSpeed` the stored tilt speed is the request clamped the same way between
`TILT_MIN_SPEED` and `TILT_MAX_SPEED`. -/
theorem setSpeed_clamps (pd : PinDef) (hpan : pd.PAN_MIN_SPEED ≤ pd.PAN_MAX_SPEED)
    (htilt : pd.TILT_MIN_SPEED ≤ pd.TILT_MAX_SPEED) (mp : State) (speed : ℚ) :
    ((speed < pd.PAN_MIN_SPEED → (setPanSpeed pd mp speed)._pan_speed = pd.PAN_MIN_SPEED) ∧
      (pd.PAN_MAX_SPEED < speed → (setPanSpeed pd mp speed)._pan_speed = pd.PAN_MAX_SPEED) ∧
      (pd.PAN_MIN_SPEED ≤ speed → speed ≤ pd.PAN_MAX_SPEED →
        (setPanSpeed pd mp speed)._pan_speed = speed)) ∧
    ((speed < pd.TILT_MIN_SPEED →
        (setTiltSpeed pd mp speed)._tilt_speed = pd.TILT_MIN_SPEED) ∧
      (pd.TILT_MAX_SPEED < speed →
        (setTiltSpeed pd mp speed)._tilt_speed = pd.TILT_MAX_SPEED) ∧
      (pd.TILT_MIN_SPEED ≤ speed → speed ≤ pd.TILT_MAX_SPEED →
        (setTiltSpeed pd mp speed)._tilt_speed = speed)) := by
  refine ⟨⟨?_, ?_, ?_⟩, ?_, ?_, ?_⟩
  · intro h
    simp [setPanSpeed, h]
  · intro h
    have h1 : ¬ speed < pd.PAN_MIN_SPEED := not_lt.2 (le_trans hpan (le_of_lt h))
    simp [setPanSpeed, h1, h]
  · intro h1 h2
    simp [setPanSpeed, not_lt.2 h1, not_lt.2 h2]
  · intro h
    simp [setTiltSpeed, le_of_lt h]
  · intro h
    have h1 : ¬ speed ≤ pd.TILT_MIN_SPEED := not_le.2 (lt_of_le_of_lt htilt h)
    simp [setTiltSpeed, h1, le_of_lt h]
  · intro h1 h2
    show (if speed ≤ pd.TILT_MIN_SPEED then pd.TILT_MIN_SPEED
      else if speed ≥ pd.TILT_MAX_SPEED then pd.TILT_MAX_SPEED else speed) = speed
    split_ifs with a b
    · exact le_antisymm h1 a
    · exact le_antisymm b h2
    · rfl

theorem setSpeed_clamps_witness :
    demoPinDef.PAN_MIN_SPEED ≤ demoPinDef.PAN_MAX_SPEED ∧
    demoPinDef.TILT_MIN_SPEED ≤ demoPinDef.TILT_MAX_SPEED ∧
    ((50 < demoPinDef.PAN_MIN_SPEED →
        (setPanSpeed demoPinDef demoState 50)._pan_speed = demoPinDef.PAN_MIN_SPEED) ∧
      (demoPinDef.PAN_MAX_SPEED < 50 →
        (setPanSpeed demoPinDef demoState 50)._pan_speed = demoPinDef.PAN_MAX_SPEED) ∧
      (demoPinDef.PAN_MIN_SPEED ≤ 50 → 50 ≤ demoPinDef.PAN_MAX_SPEED →
        (setPanSpeed demoPinDef demoState 50)._pan_speed = 50)) ∧
    ((50 < demoPinDef.TILT_MIN_SPEED →
        (setTiltSpeed demoPinDef demoState 50)._tilt_speed = demoPinDef.TILT_MIN_SPEED) ∧
      (demoPinDef.TILT_MAX_SPEED < 50 →
        (setTiltSpeed demoPinDef demoState 50)._tilt_speed = demoPinDef.TILT_MAX_SPEED) ∧
      (demoPinDef.TILT_MIN_SPEED ≤ 50 → 50 ≤ demoPinDef.TILT_MAX_SPEED →
        (setTiltSpeed demoPinDef demoState 50)._tilt_speed = 50)) :=
  ⟨by norm_num [demoPinDef], by norm_num [demoPinDef],
    setSpeed_clamps demoPinDef (by norm_num [demoPinDef]) (by norm_num [demoPinDef])
      demoState 50⟩

/-! ### Conversion to `long` -/

/-- The conversion to `long` drops the fraction: it rounds toward zero. -/
theorem toLong_eq (x : ℚ) : toLong x = if 0 ≤ x then ⌊x⌋ else ⌈x⌉ := by
  have hpos : ∀ y : ℚ, 0 ≤ y → toLong y = ⌊y⌋ := by
    intro y hy
    show y.num.tdiv y.den = Rat.floor y
    rw [Rat.floor_def', Int.tdiv_eq_ediv (Rat.num_nonneg.2 hy) (by positivity)]
  by_cases h : 0 ≤ x
  · rw [if_pos h, hpos x h]
  · rw [if_neg h]
    have h' : 0 ≤ -x := by linarith
    have e := hpos (-x) h'
    unfold toLong at e
    rw [Rat.neg_num, Rat.neg_den, Int.neg_tdiv, Int.floor_neg] at e
    exact neg_injective e

theorem toLong_zero : toLong 0 = 0 := by
  rw [toLong_eq, if_pos (le_refl _), Int.floor_zero]

/-- The conversion to `long` of a `double` that every `long` can hold drops the
fraction. -/
theorem castLong_eq (pd : PinDef) (x : ℚ) (h : |x| < 2147483648) :
    pd.castLong x = if 0 ≤ x then ⌊x⌋ else ⌈x⌉ := by
  rw [pd.castLong_inRange x h, toLong_eq]

/-- C13 (as the claim states it, refuted): with a pan step rate of `9/80` degrees per
step, `setPosition` with a pan angle of `9/100` degrees stores `0` pan steps, while the
quotient `4/5` rounds to `1`. -/
theorem setPosition_not_round :
    (setPosition demoPinDef demoState ⟨9 / 100, 0⟩)._currentPositionSteps.p ≠
      round ((setPosition demoPinDef demoState ⟨9 / 100, 0⟩)._currentPosition.p /
        demoPinDef.PAN_STEPRATE) := by
  have hsteps : (setPosition demoPinDef demoState ⟨9 / 100, 0⟩)._currentPositionSteps.p = 0 := by
    show toLong ((9 / 100 : ℚ) / demoPinDef.PAN_STEPRATE) = 0
    rw [toLong_eq]
    simp only [demoPinDef]
    rw [if_pos (by norm_num), Int.floor_eq_iff]
    norm_num
  have hround : round ((setPosition demoPinDef demoState ⟨9 / 100, 0⟩)._currentPosition.p /
      demoPinDef.PAN_STEPRATE) = 1 := by
    show round ((9 / 100 : ℚ) / demoPinDef.PAN_STEPRATE) = 1
    simp only [demoPinDef]
    rw [round_eq, Int.floor_eq_iff]
    norm_num
  rw [hsteps, hround]
  decide

/-- C13 (amended): let the step rates be non-zero and let the quotient
`positionAngle / degreesPerStep` of each axis, as the division of the two `double`s
yields it, be below `2^31` in absolute value.  After `setPosition` the stored angles are
the ones passed, and the step position of each axis is that quotient converted to
`long`, that is with its fraction dropped (rounded toward zero, not to the nearest whole
number), for the step rate of the axis. -/
theorem setPosition_steps (pd : PinDef) (mp : State) (pos : DoubleVector)
    (hpan : pd.PAN_STEPRATE ≠ 0) (htilt : pd.TILT_STEPRATE ≠ 0)
    (hp : |pd.toDouble (pos.p / pd.PAN_STEPRATE)| < 2147483648)
    (ht : |pd.toDouble (pos.t / pd.TILT_STEPRATE)| < 2147483648) :
    (setPosition pd mp pos)._currentPosition = pos ∧
    (setPosition pd mp pos)._currentPositionSteps.p =
      (if 0 ≤ pd.toDouble (pos.p / pd.PAN_STEPRATE)
        then ⌊pd.toDouble (pos.p / pd.PAN_STEPRATE)⌋
        else ⌈pd.toDouble (pos.p / pd.PAN_STEPRATE)⌉) ∧
    (setPosition pd mp pos)._currentPositionSteps.t =
      (if 0 ≤ pd.toDouble (pos.t / pd.TILT_STEPRATE)
        then ⌊pd.toDouble (pos.t / pd.TILT_STEPRATE)⌋
        else ⌈pd.toDouble (pos.t / pd.TILT_STEPRATE)⌉) :=
  by
  have h1 : (setPosition pd mp pos)._currentPositionSteps.p =
      pd.castLong (pd.toDouble (pos.p / pd.PAN_STEPRATE)) :=
    congrArg pd.castLong (pd.divide_eq _ _ hpan)
  have h2 : (setPosition pd mp pos)._currentPositionSteps.t =
      pd.castLong (pd.toDouble (pos.t / pd.TILT_STEPRATE)) :=
    congrArg pd.castLong (pd.divide_eq _ _ htilt)
  exact ⟨rfl, h1.trans (castLong_eq pd _ hp), h2.trans (castLong_eq pd _ ht)⟩

theorem setPosition_steps_witness :
    demoPinDef.PAN_STEPRATE ≠ 0 ∧ demoPinDef.TILT_STEPRATE ≠ 0 ∧
    (setPosition demoPinDef movedState ⟨9 / 100, -1⟩)._currentPosition = ⟨9 / 100, -1⟩ ∧
    (setPosition demoPinDef movedState ⟨9 / 100, -1⟩)._currentPositionSteps.p = 0 ∧
    (setPosition demoPinDef movedState ⟨9 / 100, -1⟩)._currentPositionSteps.t = -4 := by
  have hpan : demoPinDef.PAN_STEPRATE ≠ 0 := by norm_num [demoPinDef]
  have htilt : demoPinDef.TILT_STEPRATE ≠ 0 := by norm_num [demoPinDef]
  have hpq : demoPinDef.toDouble ((9 / 100 : ℚ) / demoPinDef.PAN_STEPRATE) = 4 / 5 := by
    show (9 / 100 : ℚ) / demoPinDef.PAN_STEPRATE = 4 / 5
    norm_num [demoPinDef]
  have htq : demoPinDef.toDouble ((-1 : ℚ) / demoPinDef.TILT_STEPRATE) = -(40 / 9) := by
    show (-1 : ℚ) / demoPinDef.TILT_STEPRATE = -(40 / 9)
    norm_num [demoPinDef]
  obtain ⟨hpos, hsp, hst⟩ := setPosition_steps demoPinDef movedState ⟨9 / 100, -1⟩ hpan htilt
    (by rw [hpq, abs_lt]; constructor <;> norm_num)
    (by rw [htq, abs_lt]; constructor <;> norm_num)
  rw [hpq] at hsp
  rw [htq] at hst
  refine ⟨hpan, htilt, hpos, ?_, ?_⟩
  · rw [hsp, if_pos (by norm_num), Int.floor_eq_iff]
    norm_num
  · rw [hst, if_neg (by norm_num), Int.ceil_eq_iff]
    norm_num

/-! ### Planning a move: `line` -/

theorem line_delta_zero (pd : PinDef) (asDelta : ℚ → ℚ) (mp : State) (coords : DoubleVector) :
    (line pd asDelta mp coords)._delta 0 =
      if mp._mode = MoveMode.ABS then
        asDelta (coords.p / pd.PAN_STEPRATE) - mp._currentPositionSteps.p
      else asDelta (coords.p / pd.PAN_STEPRATE) := by
  simp [line]

theorem line_delta_one (pd : PinDef) (asDelta : ℚ → ℚ) (mp : State) (coords : DoubleVector) :
    (line pd asDelta mp coords)._delta 1 =
      if mp._mode = MoveMode.ABS then
        asDelta (coords.t / pd.TILT_STEPRATE) - mp._currentPositionSteps.t
      else asDelta (coords.t / pd.TILT_STEPRATE) := by
  simp [line]

theorem line_delta_other (pd : PinDef) (asDelta : ℚ → ℚ) (mp : State) (coords : DoubleVector)
    (i : Nat) (h0 : i ≠ 0) (h1 : i ≠ 1) :
    (line pd asDelta mp coords)._delta i = mp._delta i := by
  simp [line, Function.update_noteq h0, Function.update_noteq h1]

/-- The deltas `line` computes depend on the target, the mode and the step position
only, none of which `line` or the tick handler changes. -/
theorem line_again_delta (pd : PinDef) (asDelta : ℚ → ℚ) (mp : State) (coords : DoubleVector)
    (ticks : Nat) :
    (line pd asDelta (bresenham^[ticks] (line pd asDelta mp coords)) coords)._delta =
      (line pd asDelta mp coords)._delta := by
  have hfix : bresenham^[ticks] (line pd asDelta mp coords) = line pd asDelta mp coords :=
    Function.iterate_fixed rfl ticks
  rw [hfix]
  funext i
  by_cases h0 : i = 0
  · subst h0
    rw [line_delta_zero, line_delta_zero]
    rfl
  · by_cases h1 : i = 1
    · subst h1
      rw [line_delta_one, line_delta_one]
      rfl
    · rw [line_delta_other _ _ _ _ i h0 h1, line_delta_other _ _ _ _ i h0 h1]

/-- The scan for the fastest axis over the first `n` axes ends on an axis of largest
absolute delta, the last one of them. -/
theorem fastest_scan (delta : Nat → ℚ) :
    ∀ n, 0 < n →
      (List.range n).foldl (fastestStep delta) 0 < n ∧
      (∀ i, i < n → |delta i| ≤ |delta ((List.range n).foldl (fastestStep delta) 0)|) ∧
      (∀ i, i < n → |delta i| = |delta ((List.range n).foldl (fastestStep delta) 0)| →
        i ≤ (List.range n).foldl (fastestStep delta) 0) := by
  intro n hn
  induction n with
  | zero => omega
  | succ n ih =>
    rw [List.range_succ, List.foldl_append, List.foldl_cons, List.foldl_nil]
    rcases Nat.eq_zero_or_pos n with h0 | hpos
    · subst h0
      have e : fastestStep delta ((List.range 0).foldl (fastestStep delta) 0) 0 = 0 := by
        simp [fastestStep]
      rw [e]
      refine ⟨by omega, ?_, ?_⟩
      · intro i hi
        have : i = 0 := by omega
        subst this
        exact le_refl _
      · intro i hi _
        omega
    · obtain ⟨h1, h2, h3⟩ := ih hpos
      generalize (List.range n).foldl (fastestStep delta) 0 = f at h1 h2 h3 ⊢
      unfold fastestStep
      by_cases hc : |delta f| ≤ |delta n|
      · rw [if_pos hc]
        refine ⟨by omega, ?_, ?_⟩
        · intro i hi
          rcases Nat.eq_or_lt_of_le (Nat.le_of_lt_succ hi) with rfl | hlt
          · exact le_refl _
          · exact le_trans (h2 i hlt) hc
        · intro i hi _
          omega
      · rw [if_neg hc]
        have hlt : |delta n| < |delta f| := not_le.1 hc
        refine ⟨by omega, ?_, ?_⟩
        · intro i hi
          rcases Nat.eq_or_lt_of_le (Nat.le_of_lt_succ hi) with rfl | hlt'
          · exact le_of_lt hlt
          · exact h2 i hlt'
        · intro i hi he
          rcases Nat.eq_or_lt_of_le (Nat.le_of_lt_succ hi) with rfl | hlt'
          · exact absurd he (ne_of_lt hlt)
          · exact h3 i hlt' he

/-- C12 (what the code does instead): neither `line` nor the tick handler `bresenham`,
whose body is empty, ever moves the recorded step position.  In Absolute mode a second
`line` with the same target, after any number of ticks, computes the deltas of the
first call again instead of `0`: from step position `(0, 0)` the target of `3` pan steps
and `1` tilt step gives the pan delta `3` both times. -/
theorem line_twice_same_delta (pd : PinDef) (asDelta : ℚ → ℚ) (mp : State)
    (coords : DoubleVector) (ticks : Nat) :
    (line pd asDelta (bresenham^[ticks] (line pd asDelta mp coords)) coords)._delta =
      (line pd asDelta mp coords)._delta ∧
    demoState._mode = MoveMode.ABS ∧
    (line demoPinDef id demoState ⟨27 / 80, 9 / 40⟩)._delta 0 = 3 ∧
    (line demoPinDef id (bresenham^[3] (line demoPinDef id demoState ⟨27 / 80, 9 / 40⟩))
      ⟨27 / 80, 9 / 40⟩)._delta 0 = 3 := by
  have h3 : (line demoPinDef id demoState ⟨27 / 80, 9 / 40⟩)._delta 0 = 3 := by
    rw [line_delta_zero]
    simp only [demoState, demoPinDef]
    norm_num
  refine ⟨line_again_delta pd asDelta mp coords ticks, rfl, h3, ?_⟩
  rw [line_again_delta]
  exact h3

/-- C18: with at least one motor, the fastest axis `line` selects is one of the
`NUM_OF_MOTORS` axes, no axis has a larger absolute delta, and every axis with the same
absolute delta has a lower or the same index: among equal maxima the last axis is
selected. -/
theorem line_fastest (pd : PinDef) (asDelta : ℚ → ℚ) (mp : State) (coords : DoubleVector)
    (hN : 0 < pd.NUM_OF_MOTORS) :
    (line pd asDelta mp coords)._fastest < pd.NUM_OF_MOTORS ∧
    (∀ i, i < pd.NUM_OF_MOTORS →
      |(line pd asDelta mp coords)._delta i| ≤
        |(line pd asDelta mp coords)._delta (line pd asDelta mp coords)._fastest|) ∧
    (∀ i, i < pd.NUM_OF_MOTORS →
      |(line pd asDelta mp coords)._delta i| =
        |(line pd asDelta mp coords)._delta (line pd asDelta mp coords)._fastest| →
      i ≤ (line pd asDelta mp coords)._fastest) :=
  fastest_scan (line pd asDelta mp coords)._delta pd.NUM_OF_MOTORS hN

theorem line_fastest_witness :
    0 < demoPinDef.NUM_OF_MOTORS ∧
    (line demoPinDef id demoState ⟨27 / 80, 9 / 40⟩)._fastest < demoPinDef.NUM_OF_MOTORS ∧
    (∀ i, i < demoPinDef.NUM_OF_MOTORS →
      |(line demoPinDef id demoState ⟨27 / 80, 9 / 40⟩)._delta i| ≤
        |(line demoPinDef id demoState ⟨27 / 80, 9 / 40⟩)._delta
          (line demoPinDef id demoState ⟨27 / 80, 9 / 40⟩)._fastest|) ∧
    (∀ i, i < demoPinDef.NUM_OF_MOTORS →
      |(line demoPinDef id demoState ⟨27 / 80, 9 / 40⟩)._delta i| =
        |(line demoPinDef id demoState ⟨27 / 80, 9 / 40⟩)._delta
          (line demoPinDef id demoState ⟨27 / 80, 9 / 40⟩)._fastest| →
      i ≤ (line demoPinDef id demoState ⟨27 / 80, 9 / 40⟩)._fastest) :=
  ⟨by decide, line_fastest demoPinDef id demoState ⟨27 / 80, 9 / 40⟩ (by decide)⟩

theorem line_motorDir_zero (pd : PinDef) (asDelta : ℚ → ℚ) (mp : State)
    (coords : DoubleVector) :
    (line pd asDelta mp coords).motorDir 0 =
      if (line pd asDelta mp coords)._delta 0 < 0 then pd.PAN_DIR_CW else pd.PAN_DIR_CCW := by
  simp [line]

theorem line_motorDir_one (pd : PinDef) (asDelta : ℚ → ℚ) (mp : State)
    (coords : DoubleVector) :
    (line pd asDelta mp coords).motorDir 1 =
      if (line pd asDelta mp coords)._delta 1 < 0 then pd.TILT_DIR_CW else pd.TILT_DIR_CCW := by
  simp [line]

/-- C19: let the two direction levels of each axis differ.  After `line` the pan motor
is set to `PAN_DIR_CW` exactly when the pan delta is negative and to `PAN_DIR_CCW`
otherwise, a delta of zero included; the tilt motor is set to `TILT_DIR_CW` exactly
when the tilt delta is negative and to `TILT_DIR_CCW` otherwise. -/
theorem line_direction (pd : PinDef) (asDelta : ℚ → ℚ) (mp : State) (coords : DoubleVector)
    (hpan : pd.PAN_DIR_CW ≠ pd.PAN_DIR_CCW) (htilt : pd.TILT_DIR_CW ≠ pd.TILT_DIR_CCW) :
    ((line pd asDelta mp coords).motorDir 0 = pd.PAN_DIR_CW ↔
      (line pd asDelta mp coords)._delta 0 < 0) ∧
    ((line pd asDelta mp coords).motorDir 0 = pd.PAN_DIR_CCW ↔
      0 ≤ (line pd asDelta mp coords)._delta 0) ∧
    ((line pd asDelta mp coords).motorDir 1 = pd.TILT_DIR_CW ↔
      (line pd asDelta mp coords)._delta 1 < 0) ∧
    ((line pd asDelta mp coords).motorDir 1 = pd.TILT_DIR_CCW ↔
      0 ≤ (line pd asDelta mp coords)._delta 1) := by
  rw [line_motorDir_zero, line_motorDir_one]
  refine ⟨?_, ?_, ?_, ?_⟩
  · by_cases h : (line pd asDelta mp coords)._delta 0 < 0
    · simp [h]
    · simp [h, Ne.symm hpan]
  · by_cases h : (line pd asDelta mp coords)._delta 0 < 0
    · simp [h, hpan, not_le.2 h]
    · simp [h, not_lt.1 h]
  · by_cases h : (line pd asDelta mp coords)._delta 1 < 0
    · simp [h]
    · simp [h, Ne.symm htilt]
  · by_cases h : (line pd asDelta mp coords)._delta 1 < 0
    · simp [h, htilt, not_le.2 h]
    · simp [h, not_lt.1 h]

theorem line_direction_witness :
    demoPinDef.PAN_DIR_CW ≠ demoPinDef.PAN_DIR_CCW ∧
    demoPinDef.TILT_DIR_CW ≠ demoPinDef.TILT_DIR_CCW ∧
    ((line demoPinDef id demoState ⟨27 / 80, -9 / 40⟩).motorDir 0 = demoPinDef.PAN_DIR_CW ↔
      (line demoPinDef id demoState ⟨27 / 80, -9 / 40⟩)._delta 0 < 0) ∧
    ((line demoPinDef id demoState ⟨27 / 80, -9 / 40⟩).motorDir 0 = demoPinDef.PAN_DIR_CCW ↔
      0 ≤ (line demoPinDef id demoState ⟨27 / 80, -9 / 40⟩)._delta 0) ∧
    ((line demoPinDef id demoState ⟨27 / 80, -9 / 40⟩).motorDir 1 = demoPinDef.TILT_DIR_CW ↔
      (line demoPinDef id demoState ⟨27 / 80, -9 / 40⟩)._delta 1 < 0) ∧
    ((line demoPinDef id demoState ⟨27 / 80, -9 / 40⟩).motorDir 1 = demoPinDef.TILT_DIR_CCW ↔
      0 ≤ (line demoPinDef id demoState ⟨27 / 80, -9 / 40⟩)._delta 1) :=
  ⟨by decide, by decide,
    line_direction demoPinDef id demoState ⟨27 / 80, -9 / 40⟩ (by decide) (by decide)⟩

/-- C20: `line` leaves the recorded position (angles and steps), the mode, the speeds,
feed rates and step delays of both axes, the motors and the pins as they were; what it
writes are the deltas, the index of the fastest axis and the motor directions.  A
second `line` with the same target computes the deltas of the first call again. -/
theorem line_frame (pd : PinDef) (asDelta : ℚ → ℚ) (mp : State) (coords : DoubleVector) :
    (line pd asDelta mp coords)._currentPosition = mp._currentPosition ∧
    (line pd asDelta mp coords)._currentPositionSteps = mp._currentPositionSteps ∧
    (line pd asDelta mp coords)._mode = mp._mode ∧
    (line pd asDelta mp coords)._pan_speed = mp._pan_speed ∧
    (line pd asDelta mp coords)._pan_feedrate = mp._pan_feedrate ∧
    (line pd asDelta mp coords)._pan_linearStepDelay = mp._pan_linearStepDelay ∧
    (line pd asDelta mp coords)._tilt_speed = mp._tilt_speed ∧
    (line pd asDelta mp coords)._tilt_feedrate = mp._tilt_feedrate ∧
    (line pd asDelta mp coords)._tilt_linearStepDelay = mp._tilt_linearStepDelay ∧
    (line pd asDelta mp coords).motors = mp.motors ∧
    (line pd asDelta mp coords).pinWrites = mp.pinWrites ∧
    (line pd asDelta (line pd asDelta mp coords) coords)._delta =
      (line pd asDelta mp coords)._delta ∧
    (line pd asDelta (line pd asDelta mp coords) coords)._fastest =
      (line pd asDelta mp coords)._fastest :=
  have hdelta : (line pd asDelta (line pd asDelta mp coords) coords)._delta =
      (line pd asDelta mp coords)._delta := line_again_delta pd asDelta mp coords 0
  ⟨rfl, rfl, rfl, rfl, rfl, rfl, rfl, rfl, rfl, rfl, rfl, hdelta, by
    show (List.range pd.NUM_OF_MOTORS).foldl
        (fastestStep (line pd asDelta (line pd asDelta mp coords) coords)._delta) 0 =
      (List.range pd.NUM_OF_MOTORS).foldl (fastestStep (line pd asDelta mp coords)._delta) 0
    rw [hdelta]⟩

/-! ### Homing -/

theorem home_result (pd : PinDef) (board : Board) (fuel : Nat) (mp mp' : State)
    (h : home pd board fuel mp = some mp') :
    ∃ mp0, mp' = setPosition pd mp0 doubleZeroVect := by
  simp only [home] at h
  split at h
  · exact absurd h (by simp)
  · split at h
    · exact absurd h (by simp)
    · exact ⟨_, (Option.some.inj h).symm⟩

/-- C15: let the step rates be non-zero.  Whenever `home` returns, with whatever board
and from whatever state, the recorded position of both axes is zero: `getPosition()` is
`(0, 0)` and `getPositionSteps()` is `(0, 0)`. -/
theorem home_position_zero (pd : PinDef) (hpan : pd.PAN_STEPRATE ≠ 0)
    (htilt : pd.TILT_STEPRATE ≠ 0) (board : Board) (fuel : Nat) (mp mp' : State)
    (h : home pd board fuel mp = some mp') :
    getPosition mp' = { p := 0, t := 0 } ∧ getPositionSteps mp' = { p := 0, t := 0 } := by
  obtain ⟨mp0, rfl⟩ := home_result pd board fuel mp mp' h
  refine ⟨rfl, ?_⟩
  have hz : ∀ r : ℚ, r ≠ 0 → pd.castLong (pd.divide 0 r) = 0 := by
    intro r hr
    rw [pd.divide_eq 0 r hr, zero_div, pd.toDouble_zero,
      pd.castLong_inRange 0 (by norm_num), toLong_zero]
  show ({ p := pd.castLong (pd.divide 0 pd.PAN_STEPRATE),
          t := pd.castLong (pd.divide 0 pd.TILT_STEPRATE) } : LongVector) = _
  rw [hz _ hpan, hz _ htilt]

theorem home_position_zero_witness :
    demoPinDef.PAN_STEPRATE ≠ 0 ∧ demoPinDef.TILT_STEPRATE ≠ 0 ∧
    (getPosition movedState).p = 45 ∧ (getPosition movedState).t = -9 ∧
    (getPositionSteps movedState).p = 400 ∧ (getPositionSteps movedState).t = -40 ∧
    ∃ mp', home demoPinDef (demoBoard 2 3) 20 movedState = some mp' ∧
      getPosition mp' = { p := 0, t := 0 } ∧ getPositionSteps mp' = { p := 0, t := 0 } := by
  have hpan : demoPinDef.PAN_STEPRATE ≠ 0 := by norm_num [demoPinDef]
  have htilt : demoPinDef.TILT_STEPRATE ≠ 0 := by norm_num [demoPinDef]
  obtain ⟨mp', h⟩ := Option.isSome_iff_exists.1
    (show (home demoPinDef (demoBoard 2 3) 20 movedState).isSome = true from by decide)
  exact ⟨hpan, htilt, rfl, rfl, rfl, rfl, mp', h,
    home_position_zero demoPinDef hpan htilt (demoBoard 2 3) 20 movedState mp' h⟩

theorem stepTimes_succ (m : StepperMotor) (dir : Nat) (n : Nat) (log : PinLog) :
    stepTimes m dir (n + 1) log = m.hardStep (stepTimes m dir n log) dir := by
  induction n generalizing log with
  | zero => rfl
  | succ n ih =>
    show stepTimes m dir (n + 1) (m.hardStep log dir) = _
    rw [ih]
    rfl

theorem stepTimes_add (m : StepperMotor) (dir : Nat) (a b : Nat) (log : PinLog) :
    stepTimes m dir b (stepTimes m dir a log) = stepTimes m dir (a + b) log := by
  induction a generalizing log with
  | zero => rw [Nat.zero_add]; rfl
  | succ a ih =>
    show stepTimes m dir b (stepTimes m dir a (m.hardStep log dir)) = _
    rw [ih, Nat.add_right_comm]
    rfl

/-- The first loop of `home` on an axis whose endstop is met after `a` steps. -/
theorem seekLoop_run (pd : PinDef) (board : Board) (m : StepperMotor) (cw : Nat) :
    ∀ (a fuel : Nat) (log : PinLog), a < fuel →
      (∀ j, j < a → m.endstop board (stepTimes m cw j log) ≠ pd.HALL_MAG_DETECTED) →
      m.endstop board (stepTimes m cw a log) = pd.HALL_MAG_DETECTED →
      seekLoop pd board m cw fuel log = some (stepTimes m cw a log) := by
  intro a
  induction a with
  | zero =>
    intro fuel log hf _ hend
    obtain ⟨fuel, rfl⟩ : ∃ f, fuel = f + 1 := ⟨fuel - 1, by omega⟩
    have h0 : m.endstop board log = pd.HALL_MAG_DETECTED := hend
    simp [seekLoop, stepTimes, h0]
  | succ a ih =>
    intro fuel log hf hoff hend
    obtain ⟨fuel, rfl⟩ : ∃ f, fuel = f + 1 := ⟨fuel - 1, by omega⟩
    have h0 : m.endstop board log ≠ pd.HALL_MAG_DETECTED := hoff 0 (by omega)
    rw [seekLoop, if_pos h0]
    exact ih fuel (m.hardStep log cw) (by omega) (fun j hj => hoff (j + 1) (by omega)) hend

/-- The second loop of `home` on an axis whose endstop stays triggered for `width`
steps: the counter, eight bits wide, ends at `width` modulo `256`. -/
theorem countLoop_run (pd : PinDef) (board : Board) (m : StepperMotor) (cw : Nat) :
    ∀ (width fuel : Nat) (log : PinLog) (n : Nat), width < fuel → n < 256 →
      (∀ j, j < width → m.endstop board (stepTimes m cw j log) = pd.HALL_MAG_DETECTED) →
      m.endstop board (stepTimes m cw width log) ≠ pd.HALL_MAG_DETECTED →
      countLoop pd board m cw fuel log n =
        some (stepTimes m cw width log, (n + width) % 256) := by
  intro width
  induction width with
  | zero =>
    intro fuel log n hf hn _ hend
    obtain ⟨fuel, rfl⟩ : ∃ f, fuel = f + 1 := ⟨fuel - 1, by omega⟩
    have h0 : m.endstop board log ≠ pd.HALL_MAG_DETECTED := hend
    rw [countLoop, if_neg h0, Nat.add_zero, Nat.mod_eq_of_lt hn]
    rfl
  | succ width ih =>
    intro fuel log n hf hn hon hend
    obtain ⟨fuel, rfl⟩ : ∃ f, fuel = f + 1 := ⟨fuel - 1, by omega⟩
    have h0 : m.endstop board log = pd.HALL_MAG_DETECTED := hon 0 (by omega)
    rw [countLoop, if_pos h0,
      ih fuel (m.hardStep log cw) ((n + 1) % 256) (by omega) (Nat.mod_lt _ (by omega))
        (fun j hj => hon (j + 1) (by omega)) hend]
    have e : ((n + 1) % 256 + width) % 256 = (n + (width + 1)) % 256 := by omega
    rw [e]
    rfl

/-- The three loops of `home` on an axis whose endstop is met after `a` steps and stays
triggered for `width` steps: the axis steps back `(width mod 256) / 2` times. -/
theorem homeAxis_run (pd : PinDef) (board : Board) (m : StepperMotor) (cw ccw : Nat)
    (a width fuel : Nat) (log : PinLog) (ha : a < fuel) (hw : width < fuel)
    (hpos : 0 < width)
    (hoff : ∀ j, j < a → m.endstop board (stepTimes m cw j log) ≠ pd.HALL_MAG_DETECTED)
    (hon : ∀ j, j < width →
      m.endstop board (stepTimes m cw (a + j) log) = pd.HALL_MAG_DETECTED)
    (hend : m.endstop board (stepTimes m cw (a + width) log) ≠ pd.HALL_MAG_DETECTED) :
    homeAxis pd board m cw ccw fuel log =
      some (stepTimes m ccw (width % 256 / 2) (stepTimes m cw (a + width) log)) := by
  have hseek := seekLoop_run pd board m cw a fuel log ha hoff (hon 0 hpos)
  have hcount := countLoop_run pd board m cw width fuel (stepTimes m cw a log) 0 hw
    (by omega) (fun j hj => by rw [stepTimes_add]; exact hon j hj)
    (by rw [stepTimes_add]; exact hend)
  simp only [homeAxis, hseek, hcount, stepTimes_add, Nat.zero_add]

/-! ### The simulated endstop -/

theorem simPosition_hardStep (m : StepperMotor) (cw : Nat) (start : Int) (log : PinLog)
    (hpins : m._step_pin ≠ m._dir_pin) :
    simPosition m cw start (m.hardStep log cw) = simPosition m cw start log + 1 := by
  unfold simPosition StepperMotor.hardStep
  rw [List.foldl_append]
  simp [simWrite, hpins, HIGH, LOW]

theorem simPosition_stepTimes (m : StepperMotor) (cw : Nat) (start : Int) (log : PinLog)
    (hpins : m._step_pin ≠ m._dir_pin) (k : Nat) :
    simPosition m cw start (stepTimes m cw k log) = simPosition m cw start log + k := by
  induction k with
  | zero => simp [stepTimes]
  | succ k ih =>
    rw [stepTimes_succ, simPosition_hardStep m cw start _ hpins, ih]
    push_cast
    ring

/-- On the simulated board the endstop of the pan motor of `demoState` reports `1`
while the motor is on one of the `width` positions from `first` on, and `0` otherwise. -/
theorem demoBoard_endstop (first : Int) (width : Nat) (log : PinLog) :
    (demoState.motors 0).endstop (demoBoard first width) log =
      if first ≤ simPosition (demoState.motors 0) 0 0 log ∧
          simPosition (demoState.motors 0) 0 0 log < first + width then 1 else 0 := by
  have hm : demoState.motors 0 = ⟨2, 3, 4, 5⟩ := rfl
  rw [hm]
  simp only [StepperMotor.endstop, demoBoard, simBoard, simEndstop, if_true, LOW, HIGH]
  split_ifs <;> simp_all

/-- C14 (what the code does instead): the counter `steps_taken_pan` is eight bits wide.
On a pan endstop that is met after `2` steps and stays triggered over `256` steps, the
second loop of `home` ends with the counter back at `0`, and the pan axis then steps
back `0` times instead of `128`: the writes of `home` on the pan axis are those of
`258` steps clockwise and of no step counter-clockwise. -/
theorem home_counter_wraps :
    countLoop demoPinDef (demoBoard 2 256) (demoState.motors 0) demoPinDef.PAN_DIR_CW 300
        (stepTimes (demoState.motors 0) demoPinDef.PAN_DIR_CW 2
          (enableMotors demoPinDef demoState).pinWrites) 0 =
      some (stepTimes (demoState.motors 0) demoPinDef.PAN_DIR_CW (2 + 256)
        (enableMotors demoPinDef demoState).pinWrites, 0) ∧
    homeAxis demoPinDef (demoBoard 2 256) (demoState.motors 0) demoPinDef.PAN_DIR_CW
        demoPinDef.PAN_DIR_CCW 300 (enableMotors demoPinDef demoState).pinWrites =
      some (stepTimes (demoState.motors 0) demoPinDef.PAN_DIR_CCW 0
        (stepTimes (demoState.motors 0) demoPinDef.PAN_DIR_CW (2 + 256)
          (enableMotors demoPinDef demoState).pinWrites)) := by
  have hpins : (demoState.motors 0)._step_pin ≠ (demoState.motors 0)._dir_pin := by decide
  have hstart : simPosition (demoState.motors 0) 0 0
      (enableMotors demoPinDef demoState).pinWrites = 0 := by decide
  have hpos : ∀ k : Nat, simPosition (demoState.motors 0) 0 0
      (stepTimes (demoState.motors 0) demoPinDef.PAN_DIR_CW k
        (enableMotors demoPinDef demoState).pinWrites) = k := by
    intro k
    have := simPosition_stepTimes (demoState.motors 0) 0 0
      (enableMotors demoPinDef demoState).pinWrites hpins k
    rw [hstart, zero_add] at this
    exact this
  have hoff : ∀ j, j < 2 → (demoState.motors 0).endstop (demoBoard 2 256)
      (stepTimes (demoState.motors 0) demoPinDef.PAN_DIR_CW j
        (enableMotors demoPinDef demoState).pinWrites) ≠ demoPinDef.HALL_MAG_DETECTED := by
    intro j hj
    rw [demoBoard_endstop, hpos j, if_neg (by omega)]
    decide
  have hon : ∀ j, j < 256 → (demoState.motors 0).endstop (demoBoard 2 256)
      (stepTimes (demoState.motors 0) demoPinDef.PAN_DIR_CW (2 + j)
        (enableMotors demoPinDef demoState).pinWrites) = demoPinDef.HALL_MAG_DETECTED := by
    intro j hj
    rw [demoBoard_endstop, hpos (2 + j), if_pos (by push_cast; omega)]
    rfl
  have hend : (demoState.motors 0).endstop (demoBoard 2 256)
      (stepTimes (demoState.motors 0) demoPinDef.PAN_DIR_CW (2 + 256)
        (enableMotors demoPinDef demoState).pinWrites) ≠ demoPinDef.HALL_MAG_DETECTED := by
    rw [demoBoard_endstop, hpos (2 + 256), if_neg (by norm_num)]
    decide
  constructor
  · have := countLoop_run demoPinDef (demoBoard 2 256) (demoState.motors 0)
      demoPinDef.PAN_DIR_CW 256 300
      (stepTimes (demoState.motors 0) demoPinDef.PAN_DIR_CW 2
        (enableMotors demoPinDef demoState).pinWrites) 0 (by omega) (by omega)
      (fun j hj => by rw [stepTimes_add]; exact hon j hj)
      (by rw [stepTimes_add]; exact hend)
    rw [this, stepTimes_add]
  · exact homeAxis_run demoPinDef (demoBoard 2 256) (demoState.motors 0)
      demoPinDef.PAN_DIR_CW demoPinDef.PAN_DIR_CCW 2 256 300
      (enableMotors demoPinDef demoState).pinWrites (by omega) (by omega) (by omega)
      hoff hon hend

end MotionProcessor

namespace StepperMotor

/-- C16: `step` looks at the endstop first.  When the endstop pin reads low, `endstop()`
reports `1`, and `step` returns `0` and writes no pin.  When it does not read low,
`endstop()` reports `0`, and `step` returns `1` after exactly the pulse of `hardStep`:
the direction written to the direction pin, then the step pin high, then low. -/
theorem step_spec (m : StepperMotor) (board : Board) (log : PinLog) (dir : Nat) :
    (board log m._endstop_pin = LOW →
      m.endstop board log = 1 ∧ m.step board log dir = (0, log)) ∧
    (board log m._endstop_pin ≠ LOW →
      m.endstop board log = 0 ∧
      m.step board log dir =
        (1, log ++ [(m._dir_pin, dir), (m._step_pin, HIGH), (m._step_pin, LOW)]) ∧
      (m.step board log dir).2 = m.hardStep log dir) := by
  constructor
  · intro h
    have h0 : board log m._endstop_pin = 0 := h
    simp [step, endstop, h0]
  · intro h
    have h0 : ¬ board log m._endstop_pin = 0 := h
    simp [step, endstop, hardStep, h0]

theorem step_spec_witness :
    ((fun _ pin => if pin = 5 then 0 else 1) : Board) [] 5 = LOW ∧
    (⟨2, 3, 4, 5⟩ : StepperMotor).step (fun _ pin => if pin = 5 then 0 else 1) [] 1 = (0, []) ∧
    (⟨2, 3, 4, 5⟩ : StepperMotor).step (fun _ _ => 1) [] 1 = (1, [(2, 1), (3, 1), (3, 0)]) :=
  ⟨rfl,
    ((step_spec ⟨2, 3, 4, 5⟩ (fun _ pin => if pin = 5 then 0 else 1) [] 1).1 rfl).2,
    ((step_spec ⟨2, 3, 4, 5⟩ (fun _ _ => 1) [] 1).2 (by decide)).2.1⟩

end StepperMotor
